import Mathlib

/-!
Verification development for the dark-matter reduction pipeline
(`src/dark/blast.py`: `BlastRecords.filterHits`, `BlastHits` and
`BlastHits.computePlotInfo`).

Modelling conventions:

* Scores, e-values and axis offsets are values of a linearly ordered ring /
  field `α` (the Python code mixes `int` and `float` freely; exact ordered
  arithmetic is the shallow embedding of that).  The code instance is `ℝ`
  with `convertedE = -log10 e`; witnesses evaluate the same definitions at
  `ℤ` or `ℚ`.
* Sequence titles are values of an arbitrary `DecidableEq` type `τ`
  (the code uses strings purely as dictionary keys).
* Python dictionaries are association lists in insertion order; `set`s of
  read numbers are duplicate-free lists in insertion order.
* Python 2 `None` comparisons (`x > None` is `True`, `x < None` is `False`,
  `None` sorts below every number) are modelled by `optGTb`, `optLTb` and
  `optLeB` below.
* A Python exception (`TypeError`, `AssertionError`, `IndexError` on
  `hsps[0]`) is modelled by an `Option`/`Except` result of `none`/`.error`.
* `random.uniform(0, 150)` draws are injected as a stream `rand : ℕ → α`
  (the spec, §9, asks for the source of randomness to be an injectable
  dependency).
-/

namespace DarkMatter

/-- Association-list lookup keyed on the first component (a Python `dict`
access `d[k]` / membership `k in d`). -/
def alookup {τ β : Type} [DecidableEq τ] (t : τ) : List (τ × β) → Option β
  | [] => none
  | (s, b) :: rest => if s = t then some b else alookup t rest

/-- Python 2 truthiness-based `x or d` on an optional number: both `None` and
`0` fall back to the default (source: `maxStop or sequenceLen`,
`minStart or 0` in `plotInfoDict`). -/
def pyOr {α : Type} [Zero α] [DecidableEq α] (x : Option α) (d : α) : α :=
  match x with
  | none => d
  | some v => if v = 0 then d else v

/-- Python 2 comparison `x > m` where `m` may be `None` (`number > None` is
`True`). -/
def optGTb {α : Type} [LinearOrder α] (x : α) : Option α → Bool
  | none => true
  | some m => decide (m < x)

/-- Python 2 comparison `x < m` where `m` may be `None` (`number < None` is
`False`). -/
def optLTb {α : Type} [LinearOrder α] (x : α) : Option α → Bool
  | none => false
  | some m => decide (x < m)

/-- Python 2 key ordering used by `list.sort(key=...)` when some keys are
`None`: `None` sorts below every number. -/
def optLeB {α : Type} [LinearOrder α] : Option α → Option α → Bool
  | none, _ => true
  | some _, none => false
  | some a, some b => decide (a ≤ b)

/-- `min` of a Python list (the source only calls it on non-empty lists;
the `[]` default is irrelevant there). -/
def minList {α : Type} [LinearOrder α] [Zero α] : List α → α
  | [] => 0
  | x :: xs => xs.foldl min x

/-- `numpy.mean` on exact arithmetic. -/
def mean {α : Type} [LinearOrderedField α] (l : List α) : α :=
  l.sum / (l.length : α)

/-- `numpy.median` on exact arithmetic: sort ascending, take the middle
element, or the average of the two middle elements for even length. -/
def median {α : Type} [LinearOrderedField α] (l : List α) : α :=
  let s := List.insertionSort (· ≤ ·) l
  let n := s.length
  if n = 0 then 0
  else if n % 2 = 1 then s.getD (n / 2) 0
  else (s.getD (n / 2 - 1) 0 + s.getD (n / 2) 0) / 2

/-- One HSP of an alignment: the quality score (`hsp.expect`), the raw
(possibly reversed) query/subject offsets and the frame pair
(`hsp.frame[0]`, `hsp.frame[1]`). -/
structure HSP (α : Type) where
  expect : α
  frameQuery : ℤ
  frameSubject : ℤ
  queryStart : α
  queryEnd : α
  subjectStart : α
  subjectEnd : α
  deriving DecidableEq

/-- One alignment of a BLAST record.  `title` stands for
`record.descriptions[index].title`, which the source reads in parallel with
`record.alignments[index]`; `length` is `alignment.length` (the subject
sequence length). -/
structure Alignment (τ α : Type) where
  title : τ
  length : ℕ
  hsps : List (HSP α)
  deriving DecidableEq

/-- One BLAST record (the result for one query read). -/
structure Record (τ α : Type) where
  alignments : List (Alignment τ α)
  deriving DecidableEq

/-- The three outcomes of `TitleFilter.accept`. -/
inductive TFR where
  | whitelistAccept
  | defaultAccept
  | reject
  deriving DecidableEq

/-- Configuration of a title filter.  The regex matchers and the
title-truncation operation of `dark/filter.py` (not part of `src/`) are
injected as abstract functions. -/
structure TitleFilter (τ : Type) where
  whitelist : List τ
  blacklist : List τ
  positiveRegex : Option (τ → Bool)
  negativeRegex : Option (τ → Bool)
  truncateAfter : Option (τ → τ)

/-- Modelled from the spec: the regex stage of `TitleFilter.accept`
(`dark/filter.py` is not under `src/`).  Spec §4.4: after the
whitelist/blacklist/truncation stages, the positive regex must match and the
negative regex must not match; otherwise REJECT; with nothing configured the
title is DEFAULT_ACCEPT. -/
def tfRegex {τ : Type} (tf : TitleFilter τ) (title : τ) : TFR :=
  let negPart : TFR :=
    match tf.negativeRegex with
    | some m => if m title then TFR.reject else TFR.defaultAccept
    | none => TFR.defaultAccept
  match tf.positiveRegex with
  | some m => if m title then negPart else TFR.reject
  | none => negPart

/-- Modelled from the spec: `TitleFilter.accept` (`dark/filter.py` is not
under `src/`).  Spec §4.4 evaluation order: whitelist membership is checked
first and short-circuits to WHITELIST_ACCEPT, then blacklist membership
REJECTs, then (if a truncation marker is configured) the title is truncated
and a title truncating to an already-seen value is REJECTed (the filter is
stateful: `seen` is the set of previously seen truncated titles, threaded
through the calls), then the regexes run.  The truncation operation itself
is injected as a function `τ → τ`. -/
def tfAccept {τ : Type} [DecidableEq τ] (tf : TitleFilter τ) (seen : List τ) (title : τ) :
    TFR × List τ :=
  if title ∈ tf.whitelist then (TFR.whitelistAccept, seen)
  else if title ∈ tf.blacklist then (TFR.reject, seen)
  else
    match tf.truncateAfter with
    | some trunc =>
      let t := trunc title
      if t ∈ seen then (TFR.reject, seen)
      else (tfRegex tf title, seen ++ [t])
    | none => (tfRegex tf title, seen)

/-- Configuration of a hit-info filter (`dark/filter.py`, not under `src/`).
`BlastRecords.filterHits` constructs it without the length bounds (they were
already applied); `BlastHits.filterHits` passes the length bounds too. -/
structure HitInfoFilter (α : Type) where
  minSequenceLen : Option ℕ
  maxSequenceLen : Option ℕ
  minMatchingReads : Option ℕ
  maxMeanEValue : Option α
  maxMedianEValue : Option α
  withEBetterThan : Option α
  deriving DecidableEq

/-- Finalized per-title hit information, as stored in `BlastHits.titles`:
exactly the subject length, the read count, the read numbers and the three
summary statistics (the raw e-value list and the title-filter result have
been deleted). -/
structure HitInfo (α : Type) where
  length : ℕ
  readCount : ℕ
  readNums : List ℕ
  eMean : α
  eMedian : α
  eMin : α
  deriving DecidableEq

/-- Modelled from the spec: `HitInfoFilter.accept` (`dark/filter.py` is not
under `src/`).  Spec §4.5: a pure conjunction of the configured thresholds,
an unset threshold imposing no constraint; "better" for a lower-is-better
score means "less than or equal to" (this matches the parameter docstrings
of `filterHits` in the source: greater mean/median e-values are elided,
`withEBetterThan` requires the minimum e-value to be at most the bound, and
fewer matching reads or out-of-bounds lengths are elided). -/
def hifAccept {α : Type} [LinearOrder α] (f : HitInfoFilter α) (hi : HitInfo α) : Bool :=
  (match f.minSequenceLen with | none => true | some m => decide (m ≤ hi.length)) &&
  (match f.maxSequenceLen with | none => true | some m => decide (hi.length ≤ m)) &&
  (match f.minMatchingReads with | none => true | some m => decide (m ≤ hi.readCount)) &&
  (match f.maxMeanEValue with | none => true | some m => decide (hi.eMean ≤ m)) &&
  (match f.maxMedianEValue with | none => true | some m => decide (hi.eMedian ≤ m)) &&
  (match f.withEBetterThan with | none => true | some m => decide (hi.eMin ≤ m))

/-- The per-title accumulator built during the single pass of
`BlastRecords.filterHits`: the raw best-per-read e-value list, the subject
length, the read count, the read-number set and the stored title-filter
result from the occurrence that created the entry. -/
structure AccInfo (α : Type) where
  eValues : List α
  length : ℕ
  readCount : ℕ
  readNums : List ℕ
  titleFilterResult : TFR
  deriving DecidableEq

/-- The sequence-length bounds test of `BlastRecords.filterHits`
(`minSequenceLen is not None and sequenceLen < minSequenceLen`, etc.). -/
def outOfBounds (minLen maxLen : Option ℕ) (n : ℕ) : Bool :=
  (match minLen with | none => false | some m => decide (n < m)) ||
  (match maxLen with | none => false | some m => decide (m < n))

/-- Python `set.add` on a duplicate-free list in insertion order. -/
def addReadNum (s : List ℕ) (n : ℕ) : List ℕ :=
  if n ∈ s then s else s ++ [n]

/-- Record one more read hitting an already-accumulated title: append the
read's best e-value, increment the read count, add the read number. -/
def appendScore {τ α : Type} [DecidableEq τ] (acc : List (τ × AccInfo α)) (t : τ) (e : α)
    (readNum : ℕ) : List (τ × AccInfo α) :=
  acc.map fun p =>
    if p.1 = t then
      (p.1, { p.2 with
        eValues := p.2.eValues ++ [e],
        readCount := p.2.readCount + 1,
        readNums := addReadNum p.2.readNums readNum })
    else p

/-- One alignment step of the accumulation loop of
`BlastRecords.filterHits` (source lines 170-202).  The state is the
accumulated `result` dict plus the title filter's seen-set.  A `none` result
models the `IndexError` Python would raise on `alignment.hsps[0]` for an
alignment with no HSPs. -/
def aggAlign {τ α : Type} [DecidableEq τ] (tf : TitleFilter τ) (minLen maxLen : Option ℕ)
    (readNum : ℕ) (st : List (τ × AccInfo α) × List τ) (al : Alignment τ α) :
    Option (List (τ × AccInfo α) × List τ) :=
  let (res, seen) := tfAccept tf st.2 al.title
  if res = TFR.reject then some (st.1, seen)
  else
    match alookup al.title st.1 with
    | some _ =>
      match al.hsps.head? with
      | none => none
      | some h => some (appendScore st.1 al.title h.expect readNum, seen)
    | none =>
      if outOfBounds minLen maxLen al.length then some (st.1, seen)
      else
        match al.hsps.head? with
        | none => none
        | some h =>
          some (st.1 ++ [(al.title,
            { eValues := [h.expect], length := al.length, readCount := 1,
              readNums := [readNum], titleFilterResult := res })], seen)

/-- The accumulation pass of `BlastRecords.filterHits`: for each read (in
order) and each of its alignments, run the title filter and accumulate. -/
def aggregate {τ α : Type} [DecidableEq τ] (tf : TitleFilter τ) (minLen maxLen : Option ℕ)
    (records : List (Record τ α)) : Option (List (τ × AccInfo α)) :=
  (records.enum.foldlM
      (fun st (p : ℕ × Record τ α) =>
        p.2.alignments.foldlM (aggAlign tf minLen maxLen p.1) st)
      (([], []) : List (τ × AccInfo α) × List τ)).map (·.1)

/-- Derive the summary statistics from an accumulated entry and drop the raw
e-value list and the stored title-filter result (source lines 219-229). -/
def mkFinal {α : Type} [LinearOrderedField α] (a : AccInfo α) : HitInfo α :=
  { length := a.length, readCount := a.readCount, readNums := a.readNums,
    eMean := mean a.eValues, eMedian := median a.eValues, eMin := minList a.eValues }

/-- The retention test of `BlastRecords.filterHits` (source lines 224-225):
keep a title if it was whitelisted or if its summary statistics pass the
hit-info filter. -/
def retainHit {α : Type} [LinearOrderedField α] (hif : HitInfoFilter α) (a : AccInfo α) : Bool :=
  decide (a.titleFilterResult = TFR.whitelistAccept) || hifAccept hif (mkFinal a)

/-- `BlastRecords.filterHits`: accumulate, then finalize each accumulated
title, keeping it exactly when whitelisted or accepted by the hit-info
filter.  The resulting association list is the `titles` dict of the returned
`BlastHits` (`addHit` cannot fail here since the accumulated keys are
distinct). -/
def filterHitsRecords {τ α : Type} [DecidableEq τ] [LinearOrderedField α] (tf : TitleFilter τ)
    (hif : HitInfoFilter α) (minLen maxLen : Option ℕ) (records : List (Record τ α)) :
    Option (List (τ × HitInfo α)) :=
  (aggregate tf minLen maxLen records).map fun acc =>
    acc.filterMap fun p => if retainHit hif p.2 then some (p.1, mkFinal p.2) else none

/-- The duplicate-title error raised by `BlastHits.addHit`
(`KeyError('Title %r already present' % (title,))`): a distinct
"already present" error naming the title. -/
inductive AddHitError (τ : Type) where
  | alreadyPresent (title : τ)
  deriving DecidableEq

/-- `BlastHits.addHit`: if the title is already present raise the duplicate
error and leave the titles mapping unchanged (the `raise` precedes the
assignment); otherwise store the hit info under the title. -/
def addHit {τ α : Type} [DecidableEq τ] (titles : List (τ × HitInfo α)) (t : τ)
    (hi : HitInfo α) : Except (AddHitError τ) Unit × List (τ × HitInfo α) :=
  if (alookup t titles).isSome then (Except.error (AddHitError.alreadyPresent t), titles)
  else (Except.ok (), titles ++ [(t, hi)])

/-- `BlastHits.filterHits` (source lines 374-393): walk the existing titles
dict in order, re-running the title filter (with its seen-set threaded) and
the hit-info filter, and collect the very same `(title, hitInfo)` pairs that
pass.  The source is only read, never written. -/
def filterHitsAgain {τ α : Type} [DecidableEq τ] [LinearOrder α] (tf : TitleFilter τ)
    (hif : HitInfoFilter α) : List τ → List (τ × HitInfo α) → List (τ × HitInfo α)
  | _, [] => []
  | seen, (t, hi) :: rest =>
    let (res, seen') := tfAccept tf seen t
    if decide (res = TFR.whitelistAccept) ||
        (decide (res = TFR.defaultAccept) && hifAccept hif hi) then
      (t, hi) :: filterHitsAgain tf hif seen' rest
    else filterHitsAgain tf hif seen' rest

/-- `BlastHits._readFASTA` (source lines 429-456): read the FASTA sequences
(modelled by their lengths) and check the count against the number of BLAST
records counted in the first pass.  With no limit the counts must be equal;
with a limit the FASTA must have at least as many sequences as were counted,
and is then truncated to the limit.  A `none` result models the descriptive
`AssertionError`. -/
def readFASTA {β : Type} (fasta : List β) (recordsLen : ℕ) (limit : Option ℕ) :
    Option (List β) :=
  match limit with
  | none => if fasta.length = recordsLen then some fasta else none
  | some lim => if recordsLen ≤ fasta.length then some (fasta.take lim) else none

/-- A normalized HSP: query/subject offsets in ascending order. -/
structure NormHSP (α : Type) where
  queryStart : α
  queryEnd : α
  subjectStart : α
  subjectEnd : α
  deriving DecidableEq

/-- Modelled from the spec: `normalizeHSP` of `dark/hsp.py` (not under
`src/`).  Spec §4.3: the output always has `queryStart ≤ queryEnd` and
`subjectStart ≤ subjectEnd`, with the strand indicators preserved on the
item.  The validation failure of §4.3 has no trigger on this offset-only
representation, so the model is total; no claim below depends on a
normalization failure. -/
def normalizeHSP {α : Type} [LinearOrder α] (h : HSP α) : NormHSP α :=
  { queryStart := min h.queryStart h.queryEnd,
    queryEnd := max h.queryStart h.queryEnd,
    subjectStart := min h.subjectStart h.subjectEnd,
    subjectEnd := max h.subjectStart h.subjectEnd }

/-- One plot item (source lines 588-598): the converted score (`none` is the
pending-zero marker, Python `None`), the normalized HSP, the original HSP,
the query length, the read number and the frames. -/
structure Item (α : Type) where
  convertedE : Option α
  hsp : NormHSP α
  origHsp : HSP α
  queryLen : ℕ
  readNum : ℕ
  frameQuery : ℤ
  frameSubject : ℤ
  deriving DecidableEq

/-- Modelled from the spec: the interval tracker of `dark/intervals.py`
(not under `src/`).  It records the subject-sequence length and the covered
ranges added so far, in insertion order. -/
structure ReadIntervals (α : Type) where
  seqLen : ℕ
  ivals : List (α × α)
  deriving DecidableEq

/-- The two segment kinds yielded by the interval walk. -/
inductive SegKind where
  | empty
  | full
  deriving DecidableEq

/-- Modelled from the spec: merge a start-sorted list of covered intervals,
joining overlapping or touching ranges (spec §4.1). -/
def mergeIvals {α : Type} [LinearOrder α] : List (α × α) → List (α × α)
  | [] => []
  | [i] => [i]
  | (s1, e1) :: (s2, e2) :: rest =>
    if s2 ≤ e1 then mergeIvals ((s1, max e1 e2) :: rest)
    else (s1, e1) :: mergeIvals ((s2, e2) :: rest)

/-- Modelled from the spec: build the alternating EMPTY/COVERED segment list
over `[pos, N)` from merged covered intervals, skipping zero-width
segments (spec §4.1). -/
def buildSegs {α : Type} [LinearOrder α] (N : α) : α → List (α × α) → List (SegKind × α × α)
  | pos, [] => if pos < N then [(SegKind.empty, pos, N)] else []
  | pos, (s, e) :: rest =>
    ((if pos < s then [(SegKind.empty, pos, s)] else []) ++
      (if s < e then [(SegKind.full, s, e)] else [])) ++ buildSegs N (max pos e) rest

/-- Modelled from the spec: the `walk()` of the interval tracker — the
alternating segment sequence over `[0, N)` (spec §4.1). -/
def walkSegs {α : Type} [LinearOrderedCommRing α] (ri : ReadIntervals α) : List (SegKind × α × α) :=
  buildSegs (ri.seqLen : α) 0
    (mergeIvals (List.insertionSort (fun a b : α × α => a.1 ≤ b.1) ri.ivals))

/-- Modelled from the spec: `OffsetAdjuster.adjustOffset` (`dark/intervals.py`,
not under `src/`).  Spec §4.2: walking the segments, a COVERED segment keeps
its width, an EMPTY segment of width `w` is compressed to `log_b (w + 1)`
(the base-`b` logarithm is injected as `logw`); the cumulative adjusted
position of an offset is monotone and agrees with the identity on a first
covered prefix. -/
def adjustOffset {α : Type} [LinearOrderedCommRing α] (logw : α → α) :
    List (SegKind × α × α) → α → α
  | [], _ => 0
  | (k, s, e) :: rest, x =>
    let width : α := match k with
      | SegKind.full => e - s
      | SegKind.empty => logw (e - s + 1)
    if e ≤ x then width + adjustOffset logw rest x
    else if s < x then
      (match k with
       | SegKind.full => x - s
       | SegKind.empty => logw (x - s + 1))
    else 0

/-- Modelled from the spec: `OffsetAdjuster.adjustNormalizedHSP` applies the
offset adjustment to the query offsets of a normalized HSP (spec §4.2). -/
def adjustNHSP {α : Type} [LinearOrderedCommRing α] (logw : α → α)
    (segs : List (SegKind × α × α)) (h : NormHSP α) : NormHSP α :=
  { h with
    queryStart := adjustOffset logw segs h.queryStart,
    queryEnd := adjustOffset logw segs h.queryEnd }

/-- The per-title plot information dict (source `plotInfoDict` plus the keys
set later: `maxEIncludingRandoms` and, under `logLinearXAxis`,
`readIntervals` and `offsetAdjuster`; absent keys are `none`). -/
structure PlotInfo (α : Type) where
  hspTotal : ℕ
  items : List (Item α)
  maxE : Option α
  minE : Option α
  maxX : α
  minX : α
  zeroEValueFound : Bool
  readIntervals : Option (ReadIntervals α)
  offsetAdjuster : Option (List (SegKind × α × α))
  maxEIncludingRandoms : Option α
  deriving DecidableEq

/-- The parameters of `computePlotInfo`. -/
structure PlotParams (α : Type) where
  eCutoff : Option α
  maxHspsPerHit : Option ℕ
  minStart : Option α
  maxStop : Option α
  logLinearXAxis : Bool
  logBase : α
  randomizeZeroEValues : Bool
  rankEValues : Bool

/-- One entry of `BlastHits.titles` as used by `computePlotInfo`: the subject
length (read) and the plot info (reset and rebuilt); the other hit-info
fields are neither read nor written by `computePlotInfo`. -/
structure TitleEntry (α : Type) where
  length : ℕ
  plotInfo : Option (PlotInfo α)
  deriving DecidableEq

/-- The fresh plot-info dict allocated on the first HSP group for a title
(source `plotInfoDict`, lines 511-533).  `maxStop or sequenceLen` and
`minStart or 0` use Python truthiness (`pyOr`). -/
def plotInfoDict {α : Type} [LinearOrderedCommRing α] (p : PlotParams α) (sequenceLen : ℕ) :
    PlotInfo α :=
  { hspTotal := 0, items := [],
    maxE := none, minE := none,
    maxX := pyOr p.maxStop (sequenceLen : α),
    minX := pyOr p.minStart 0,
    zeroEValueFound := false,
    readIntervals :=
      if p.logLinearXAxis then some { seqLen := sequenceLen, ivals := [] } else none,
    offsetAdjuster := none,
    maxEIncludingRandoms := none }

/-- One HSP step of the walk (source lines 546-598).  `firstItem` is the
flag computed once per title group (it stays constant over the whole group,
exactly as in the source).  Order of operations follows the source: the
`minStart`/`maxStop` skip, then the interval registration, then the
`eCutoff` skip, then the converted-score and min/max updates, then the X
extent updates, then the item append. -/
def hspStep {α : Type} [LinearOrderedCommRing α] (conv : α → α) (p : PlotParams α)
    (firstItem : Bool) (queryLen : ℕ) (readNum : ℕ) (pi : PlotInfo α) (h : HSP α) :
    PlotInfo α :=
  let n := normalizeHSP h
  if (match p.minStart with | none => false | some s => decide (n.queryStart < s)) ||
     (match p.maxStop with | none => false | some t => decide (t < n.queryEnd)) then pi
  else
    let pi :=
      if p.logLinearXAxis then
        { pi with readIntervals := pi.readIntervals.map fun ri =>
            { ri with ivals := ri.ivals ++ [(n.queryStart, n.queryEnd)] } }
      else pi
    let e := h.expect
    if (match p.eCutoff with | none => false | some c => decide (c ≤ e)) then pi
    else
      let step :=
        if e = 0 then (
          (none : Option α), { pi with zeroEValueFound := true })
        else
          let ce := conv e
          (some ce,
            { pi with
              maxE := if firstItem || optGTb ce pi.maxE then some ce else pi.maxE,
              minE := if firstItem || optLTb ce pi.minE then some ce else pi.minE })
      let pi := step.2
      let pi :=
        { pi with
          minX := if n.queryStart < pi.minX then n.queryStart else pi.minX,
          maxX := if pi.maxX < n.queryEnd then n.queryEnd else pi.maxX }
      { pi with items := pi.items ++ [{
          convertedE := step.1, hsp := n, origHsp := h,
          queryLen := queryLen, readNum := readNum,
          frameQuery := h.frameQuery, frameSubject := h.frameSubject }] }

/-- One group step of the walk (source lines 535-598): on the first group for
a title allocate its plot info and set `firstItem` (which then holds for
every HSP of the group), add the group's HSP count to `hspTotal`, bound the
HSPs by `maxHspsPerHit` and fold the HSP step. -/
def walkGroup {α : Type} [LinearOrderedCommRing α] (conv : α → α) (p : PlotParams α)
    (fasta : List ℕ) (readNum : ℕ) (hsps : List (HSP α)) (entry : TitleEntry α) :
    TitleEntry α :=
  let start : PlotInfo α × Bool :=
    match entry.plotInfo with
    | none => (plotInfoDict p entry.length, true)
    | some pi => (pi, false)
  let queryLen := fasta.getD readNum 0
  let pi1 := { start.1 with hspTotal := start.1.hspTotal + hsps.length }
  let hsps2 := match p.maxHspsPerHit with | none => hsps | some m => hsps.take m
  { entry with
    plotInfo := some (hsps2.foldl (hspStep conv p start.2 queryLen readNum) pi1) }

/-- Update the entry of one title in the titles dict. -/
def updateTitle {τ α : Type} [DecidableEq τ] (ts : List (τ × TitleEntry α)) (t : τ)
    (f : TitleEntry α → TitleEntry α) : List (τ × TitleEntry α) :=
  ts.map fun p => if p.1 = t then (p.1, f p.2) else p

/-- `BlastHits._getHsps` (source lines 395-412): re-read the records and
yield `(title, readNum, hsps)` for every alignment whose title is in the
titles dict. -/
def getHsps {τ α : Type} [DecidableEq τ] (titles : List (τ × TitleEntry α))
    (records : List (Record τ α)) : List (τ × ℕ × List (HSP α)) :=
  records.enum.flatMap fun p =>
    p.2.alignments.filterMap fun al =>
      if (alookup al.title titles).isSome then some (al.title, p.1, al.hsps) else none

/-- The full HSP walk of `computePlotInfo` (source lines 535-598). -/
def walkAll {τ α : Type} [DecidableEq τ] [LinearOrderedCommRing α] (conv : α → α)
    (p : PlotParams α) (fasta : List ℕ) (titles : List (τ × TitleEntry α))
    (groups : List (τ × ℕ × List (HSP α))) : List (τ × TitleEntry α) :=
  groups.foldl
    (fun ts g => updateTitle ts g.1 (walkGroup conv p fasta g.2.1 g.2.2)) titles

/-- `for rank, item in enumerate(items, start=n)` of
`_convertEValuesToRanks`: replace each item's converted score by its rank. -/
def assignRanks {α : Type} [LinearOrderedCommRing α] : ℕ → List (Item α) → List (Item α)
  | _, [] => []
  | n, it :: rest => { it with convertedE := some (n : α) } :: assignRanks (n + 1) rest

/-- `BlastHits._convertEValuesToRanks` (source lines 414-427): stable-sort
the items by converted score (Python 2: `None` keys sort below all numbers),
assign ranks starting at 1, and set `maxE`, `maxEIncludingRandoms`, `minE`
and clear the zero flag. -/
def convertRanks {α : Type} [LinearOrderedCommRing α] (pi : PlotInfo α) : PlotInfo α :=
  let sorted := List.insertionSort
    (fun a b : Item α => optLeB a.convertedE b.convertedE = true) pi.items
  let items := assignRanks 1 sorted
  { pi with
    items := items,
    maxE := some (items.length : α),
    maxEIncludingRandoms := some (items.length : α),
    minE := some 1,
    zeroEValueFound := false }

/-- The non-random zero-score resolution (source lines 624-628): walk the
items in order; each pending-zero item increments `maxEIncludingRandoms`
and receives the incremented value.  `maxEIncludingRandoms` starts as the
title's `maxE`; when it is still `None`, Python 2 raises `TypeError` on
`None + 1`, modelled by `none`. -/
def resolvePending {α : Type} [LinearOrderedCommRing α] (mE : Option α) :
    List (Item α) → Option (List (Item α) × Option α)
  | [] => some ([], mE)
  | it :: rest =>
    if it.convertedE.isNone then
      match mE with
      | none => none
      | some m =>
        (resolvePending (some (m + 1)) rest).map fun r =>
          ({ it with convertedE := some (m + 1) } :: r.1, r.2)
    else
      (resolvePending mE rest).map fun r => (it :: r.1, r.2)

/-- The randomized zero-score resolution (source lines 616-623): each
pending-zero item receives `maxE + 2 + uniform(0, 150)` (the draws are the
injected stream `rand`, consumed in order), extending
`maxEIncludingRandoms` when exceeded.  With `maxE` still `None`, Python 2
raises `TypeError` on `None + 2`, modelled by `none`. -/
def resolveRandom {α : Type} [LinearOrderedCommRing α] (maxE : Option α) (rand : ℕ → α) :
    ℕ → Option α → List (Item α) → Option (List (Item α) × Option α × ℕ)
  | k, mEIR, [] => some ([], mEIR, k)
  | k, mEIR, it :: rest =>
    if it.convertedE.isNone then
      match maxE with
      | none => none
      | some m =>
        let e := m + 2 + rand k
        let mEIR' := if optGTb e mEIR then some e else mEIR
        (resolveRandom maxE rand (k + 1) mEIR' rest).map fun r =>
          ({ it with convertedE := some e } :: r.1, r.2)
    else
      (resolveRandom maxE rand k mEIR rest).map fun r => (it :: r.1, r.2)

/-- The log-linear axis post-processing for one title (source lines
633-670): build the offset adjuster from the title's interval walk, adjust
every item's normalized HSP, recompute the min/max X extent from the
adjusted items, extend them by the adjusted boundaries of a leading/trailing
EMPTY segment (Python 2 `None` comparison semantics), and store the new
extent only when a minimum was found (`assert maxX is not None` is the
`none` case), plus the adjuster itself. -/
def llAdjust {α : Type} [LinearOrderedCommRing α] (logw : α → α) (pi : PlotInfo α) :
    Option (PlotInfo α) :=
  let segs := walkSegs (pi.readIntervals.getD { seqLen := 0, ivals := [] })
  let items := pi.items.map fun it => { it with hsp := adjustNHSP logw segs it.hsp }
  let mm : Option α × Option α := items.foldl
    (fun mm it =>
      ((match mm.1 with
        | none => some it.hsp.queryStart
        | some m => if it.hsp.queryStart < m then some it.hsp.queryStart else some m),
       (match mm.2 with
        | none => some it.hsp.queryEnd
        | some m => if m < it.hsp.queryEnd then some it.hsp.queryEnd else some m)))
    (none, none)
  let mm :=
    match segs.head? with
    | some (SegKind.empty, s, _) =>
      let aS := adjustOffset logw segs s
      (if optLTb aS mm.1 then some aS else mm.1, mm.2)
    | _ => mm
  let mm :=
    match segs.getLast? with
    | some (SegKind.empty, _, e) =>
      let aE := adjustOffset logw segs e
      (mm.1, if optGTb aE mm.2 then some aE else mm.2)
    | _ => mm
  let pi := { pi with items := items, offsetAdjuster := some segs }
  match mm with
  | (some mn, some mx) => some { pi with minX := mn, maxX := mx }
  | (some _, none) => none
  | (none, _) => some pi

/-- The per-title post-processing of `computePlotInfo` (source lines
600-670): optional rank conversion, zero-score resolution (random or
incremental), storing `maxEIncludingRandoms`, and the optional log-linear
axis adjustment.  `k` is the position in the injected random stream;
a `none` result models a Python exception. -/
def finalizeTitle {α : Type} [LinearOrderedCommRing α] (logw : α → α) (rand : ℕ → α)
    (p : PlotParams α) (k : ℕ) (pi : PlotInfo α) : Option (PlotInfo α × ℕ) :=
  let pi := if p.rankEValues then convertRanks pi else pi
  let res : Option (List (Item α) × Option α × ℕ) :=
    if pi.zeroEValueFound then
      if p.randomizeZeroEValues then
        resolveRandom pi.maxE rand k pi.maxE pi.items
      else
        (resolvePending pi.maxE pi.items).map fun r => (r.1, r.2, k)
    else some (pi.items, pi.maxE, k)
  match res with
  | none => none
  | some (items, mEIR, k') =>
    let pi := { pi with items := items, maxEIncludingRandoms := mEIR }
    if p.logLinearXAxis then
      (llAdjust logw pi).map fun pi2 => (pi2, k')
    else some (pi, k')

/-- The post-processing loop of `computePlotInfo` over all titles (source
lines 600-670), threading the random-stream position. -/
def finalizeAll {τ α : Type} [LinearOrderedCommRing α] (logw : α → α) (rand : ℕ → α)
    (p : PlotParams α) : ℕ → List (τ × TitleEntry α) → Option (List (τ × TitleEntry α))
  | _, [] => some []
  | k, (t, e) :: rest =>
    match e.plotInfo with
    | none => (finalizeAll logw rand p k rest).map (fun l => (t, e) :: l)
    | some pi =>
      match finalizeTitle logw rand p k pi with
      | none => none
      | some (pi2, k2) =>
        (finalizeAll logw rand p k2 rest).map
          (fun l => (t, { e with plotInfo := some pi2 }) :: l)

/-- The reset at the start of every `computePlotInfo` invocation (source
lines 486-489): every title's plot info is set back to absent. -/
def resetPlotInfo {τ α : Type} (ts : List (τ × TitleEntry α)) : List (τ × TitleEntry α) :=
  ts.map fun p => (p.1, { p.2 with plotInfo := none })

/-- `BlastHits.computePlotInfo` (source lines 458-670): reset all plot info,
read (or use the cached) FASTA — failing closed on a count mismatch — then
walk all HSP groups of the retained titles and post-process each title.
`fastaSeqs` holds the FASTA sequences as their lengths (only
`len(self.fasta[readNum])` is ever used), `recordsLen` is the record count
of the first pass and `fastaCache` is the `self.fasta` cache. -/
def computePlotInfo {τ α : Type} [DecidableEq τ] [LinearOrderedCommRing α] (conv logw : α → α)
    (rand : ℕ → α) (p : PlotParams α) (records : List (Record τ α)) (fastaSeqs : List ℕ)
    (recordsLen : ℕ) (limit : Option ℕ) (fastaCache : Option (List ℕ))
    (titles : List (τ × TitleEntry α)) : Option (List (τ × TitleEntry α)) :=
  let titles0 := resetPlotInfo titles
  match (match fastaCache with
         | some f => some f
         | none => readFASTA fastaSeqs recordsLen limit) with
  | none => none
  | some fasta =>
    finalizeAll logw rand p 0 (walkAll conv p fasta titles0 (getHsps titles0 records))

/-- The converted score of the source: `convertedE = -1.0 * log10(e)`. -/
noncomputable def neglog10 (e : ℝ) : ℝ := -Real.logb 10 e

/-- The code instance of `computePlotInfo`: real-valued scores and offsets,
`-log10` score conversion, and the spec's `log_b (w + 1)` gap compression
in base `logBase`. -/
noncomputable def computePlotInfoReal {τ : Type} [DecidableEq τ] (rand : ℕ → ℝ)
    (p : PlotParams ℝ) (records : List (Record τ ℝ)) (fastaSeqs : List ℕ)
    (recordsLen : ℕ) (limit : Option ℕ) (fastaCache : Option (List ℕ))
    (titles : List (τ × TitleEntry ℝ)) : Option (List (τ × TitleEntry ℝ)) :=
  computePlotInfo neglog10 (Real.logb p.logBase) rand p records fastaSeqs
    recordsLen limit fastaCache titles

/-! ### Helper lemmas -/

theorem alookup_append {τ β : Type} [DecidableEq τ] (t : τ) (l1 l2 : List (τ × β)) :
    alookup t (l1 ++ l2) =
      match alookup t l1 with
      | some b => some b
      | none => alookup t l2 := by
  induction l1 with
  | nil => simp [alookup]
  | cons p rest ih =>
    by_cases h : p.1 = t
    · simp [alookup, h]
    · simpa [alookup, h] using ih

theorem filterHitsAgain_sublist {τ α : Type} [DecidableEq τ] [LinearOrder α]
    (tf : TitleFilter τ) (hif : HitInfoFilter α) :
    ∀ (titles : List (τ × HitInfo α)) (seen : List τ),
      (filterHitsAgain tf hif seen titles).Sublist titles := by
  intro titles
  induction titles with
  | nil => intro seen; simp [filterHitsAgain]
  | cons p rest ih =>
    intro seen
    obtain ⟨t, hi⟩ := p
    rw [filterHitsAgain]
    by_cases h : (decide ((tfAccept tf seen t).1 = TFR.whitelistAccept) ||
        (decide ((tfAccept tf seen t).1 = TFR.defaultAccept) && hifAccept hif hi)) = true
    · simp only [h, if_true]
      exact List.Sublist.cons₂ _ (ih _)
    · simp only [h, if_false]
      exact List.Sublist.cons _ (ih _)

/-! ### Claim theorems -/

/-- Claim C7: `BlastHits.filterHits` returns a new result whose entries are
the very same `(title, hitInfo)` associations held by the source (in the
model, the result list is a sublist of the source's titles list, so every
retained pair is literally a pair of the source), and the source is not
modified (the model is a pure function of the source's titles list, mirroring
the code, which only reads `self.titles`). -/
theorem C7_filterHits_shares {τ α : Type} [DecidableEq τ] [LinearOrder α]
    (tf : TitleFilter τ) (hif : HitInfoFilter α) (titles : List (τ × HitInfo α))
    (seen : List τ) (t : τ) (hi : HitInfo α)
    (hmem : (t, hi) ∈ filterHitsAgain tf hif seen titles) :
    (t, hi) ∈ titles ∧ (filterHitsAgain tf hif seen titles).Sublist titles :=
  ⟨(filterHitsAgain_sublist tf hif titles seen).subset hmem,
    filterHitsAgain_sublist tf hif titles seen⟩

/-- Sample hit infos for the witnesses. -/
def hiW0 : HitInfo ℚ :=
  { length := 100, readCount := 5, readNums := [0, 1, 2, 3, 4],
    eMean := 1, eMedian := 1, eMin := 1 }

def hiW1 : HitInfo ℚ :=
  { length := 90, readCount := 4, readNums := [0, 1, 2, 3],
    eMean := 2, eMedian := 2, eMin := 2 }

def hiW2 : HitInfo ℚ :=
  { length := 80, readCount := 1, readNums := [7],
    eMean := 3, eMedian := 3, eMin := 3 }

def tfW7 : TitleFilter ℕ :=
  { whitelist := [], blacklist := [1], positiveRegex := none, negativeRegex := none,
    truncateAfter := none }

def hifW7 : HitInfoFilter ℚ :=
  { minSequenceLen := none, maxSequenceLen := none, minMatchingReads := some 2,
    maxMeanEValue := none, maxMedianEValue := none, withEBetterThan := none }

def titlesW7 : List (ℕ × HitInfo ℚ) := [(0, hiW0), (1, hiW1), (2, hiW2)]

/-- Witness for C7 at a concrete input: title 1 is blacklisted and title 2
fails the read-count threshold, so the result is `[(0, hiW0)]`, a sublist of
the source sharing its entry. -/
theorem C7_witness :
    (0, hiW0) ∈ titlesW7 ∧
      (filterHitsAgain tfW7 hifW7 [] titlesW7).Sublist titlesW7 :=
  ⟨(C7_filterHits_shares tfW7 hifW7 titlesW7 [] 0 hiW0 (by decide)).1,
    (C7_filterHits_shares tfW7 hifW7 titlesW7 [] 0 hiW0 (by decide)).2⟩

/-- Claim C9: for a title already present, `addHit` raises the distinct
"already present" error naming the title and leaves the titles mapping
unchanged; for a title not present it stores the hit info under the title
(and other titles' lookups are unaffected). -/
theorem C9_addHit {τ α : Type} [DecidableEq τ] (titles : List (τ × HitInfo α)) (t : τ)
    (hi : HitInfo α) :
    ((alookup t titles).isSome = true →
      addHit titles t hi = (Except.error (AddHitError.alreadyPresent t), titles)) ∧
    (alookup t titles = none →
      addHit titles t hi = (Except.ok (), titles ++ [(t, hi)]) ∧
      alookup t (titles ++ [(t, hi)]) = some hi ∧
      ∀ s, s ≠ t → alookup s (titles ++ [(t, hi)]) = alookup s titles) := by
  constructor
  · intro h
    simp [addHit, h]
  · intro h
    refine ⟨by simp [addHit, h], ?_, ?_⟩
    · rw [alookup_append, h]
      simp [alookup]
    · intro s hs
      rw [alookup_append]
      match hstep : alookup s titles with
      | some b => rfl
      | none => simp [alookup, hs, Ne.symm hs]

/-- Witness for C9 at a concrete input: adding title 0 to a mapping already
holding title 0 errors and returns the mapping unchanged; adding title 1
appends it. -/
theorem C9_witness :
    addHit [(0, hiW0)] 0 hiW1 =
        (Except.error (AddHitError.alreadyPresent 0), [(0, hiW0)]) ∧
      addHit [(0, hiW0)] 1 hiW1 = (Except.ok (), [(0, hiW0), (1, hiW1)]) :=
  ⟨(C9_addHit [(0, hiW0)] 0 hiW1).1 (by decide),
    ((C9_addHit [(0, hiW0)] 1 hiW1).2 (by decide)).1⟩

/-- Claim C8: the second pass fails closed on a count mismatch.  With no
record limit, reading the FASTA fails exactly when the number of FASTA
sequences differs from the number of records counted in the first pass; with
a limit it fails exactly when the FASTA has fewer sequences than that count,
and otherwise truncates the FASTA to the limit.  It never silently proceeds
with mismatched counts. -/
theorem C8_readFASTA {β : Type} (fasta : List β) (n : ℕ) :
    (readFASTA fasta n none = none ↔ fasta.length ≠ n) ∧
    (fasta.length = n → readFASTA fasta n none = some fasta) ∧
    ∀ lim : ℕ,
      (readFASTA fasta n (some lim) = none ↔ fasta.length < n) ∧
      (n ≤ fasta.length → readFASTA fasta n (some lim) = some (fasta.take lim)) := by
  refine ⟨?_, ?_, ?_⟩
  · constructor
    · intro h hlen
      simp [readFASTA, hlen] at h
    · intro h
      simp [readFASTA, h]
  · intro h
    simp [readFASTA, h]
  · intro lim
    constructor
    · constructor
      · intro h
        by_contra hlt
        simp [readFASTA, Nat.le_of_not_lt hlt] at h
      · intro h
        simp [readFASTA, Nat.not_le_of_lt h]
    · intro h
      simp [readFASTA, h]

/-- Witness for C8 at concrete inputs: with no limit, a 2-sequence FASTA
against 3 counted records fails; with limit 2, a 3-sequence FASTA against 2
counted records succeeds and is truncated to the limit. -/
theorem C8_witness :
    readFASTA [10, 20] 3 none = none ∧
      readFASTA [10, 20, 30] 2 (some 2) = some [10, 20] :=
  ⟨(C8_readFASTA [10, 20] 3).1.mpr (by decide),
    ((C8_readFASTA [10, 20, 30] 2).2.2 2).2 (by decide)⟩

/-! ### Spec-side descriptions (from the claim wording, for comparison) -/

/-- Spec-side description of the non-random zero resolution (claim C2):
replace the pending (`none`) scores by successive values `next`,
`next + 1`, … in list order, leaving settled scores unchanged. -/
def assignPendingSpec {α : Type} [LinearOrderedCommRing α] : α → List (Option α) → List (Option α)
  | _, [] => []
  | next, none :: rest => some next :: assignPendingSpec (next + 1) rest
  | next, some x :: rest => some x :: assignPendingSpec next rest

/-- Spec-side description of the rank list (claim C3): the converted scores
after rank conversion are exactly `1, …, n`. -/
def rankListSpec (α : Type) [LinearOrderedCommRing α] (n : ℕ) : List (Option α) :=
  (List.range n).map fun i => some ((i + 1 : ℕ) : α)

/-! ### Zero-resolution and rank lemmas -/

theorem resolvePending_spec {α : Type} [LinearOrderedCommRing α] (items : List (Item α)) :
    ∀ m : α, ∃ l',
      resolvePending (some m) items =
        some (l', some (m + (items.countP (fun it => it.convertedE.isNone) : α))) ∧
      l'.map (·.convertedE) = assignPendingSpec (m + 1) (items.map (·.convertedE)) := by
  induction items with
  | nil =>
    intro m
    refine ⟨[], ?_, rfl⟩
    simp [resolvePending]
  | cons it rest ih =>
    intro m
    by_cases h : it.convertedE.isNone
    · obtain ⟨l', hres, hmap⟩ := ih (m + 1)
      refine ⟨{ it with convertedE := some (m + 1) } :: l', ?_, ?_⟩
      · have hc : m + 1 + (rest.countP (fun it => it.convertedE.isNone) : α) =
            m + ((it :: rest).countP (fun it => it.convertedE.isNone) : α) := by
          simp only [List.countP_cons, h, if_true]
          push_cast
          ring
        rw [resolvePending, if_pos h, hres, Option.map_some', hc]
      · rw [Option.isNone_iff_eq_none] at h
        simp only [List.map_cons, h, assignPendingSpec, hmap]
    · obtain ⟨l', hres, hmap⟩ := ih m
      rw [Bool.not_eq_true] at h
      refine ⟨it :: l', ?_, ?_⟩
      · rw [resolvePending, if_neg (by simp [h]), hres]
        simp [List.countP_cons, h]
      · obtain ⟨x, hx⟩ : ∃ x, it.convertedE = some x := by
          cases hce : it.convertedE with
          | none => rw [hce] at h; simp at h
          | some x => exact ⟨x, rfl⟩
        simp only [List.map_cons, hx, assignPendingSpec, hmap]

theorem llAdjust_preserves {α : Type} [LinearOrderedCommRing α] (logw : α → α)
    (q q2 : PlotInfo α) (h : llAdjust logw q = some q2) :
    q2.items.map (·.convertedE) = q.items.map (·.convertedE) ∧
    q2.maxEIncludingRandoms = q.maxEIncludingRandoms ∧
    q2.items.length = q.items.length ∧
    q2.maxE = q.maxE ∧ q2.minE = q.minE ∧ q2.zeroEValueFound = q.zeroEValueFound := by
  have hmap : ∀ segs, ((q.items.map fun it =>
      { it with hsp := adjustNHSP logw segs it.hsp }).map (·.convertedE)) =
      q.items.map (·.convertedE) := by
    intro segs
    rw [List.map_map]
    rfl
  simp only [llAdjust] at h
  split at h
  · rw [Option.some_inj] at h
    subst h
    refine ⟨hmap _, rfl, by simp, rfl, rfl, rfl⟩
  · exact absurd h (by simp)
  · rw [Option.some_inj] at h
    subst h
    refine ⟨hmap _, rfl, by simp, rfl, rfl, rfl⟩

/-- Claim C2 (amended): in `computePlotInfo`'s per-title post-processing with
`randomizeZeroEValues=False` and `rankEValues=False`, for a title whose walk
found a zero score and whose running `maxE` is set (some item had a non-zero
score), every pending-zero item is assigned, in item insertion order,
successive converted scores `maxE+1, maxE+2, …`, with
`maxEIncludingRandoms` incremented once per pending item (ending at
`maxE + #pending`), and no random draw is consumed. -/
theorem C2_zero_resolution {α : Type} [LinearOrderedCommRing α] (logw : α → α) (rand : ℕ → α)
    (p : PlotParams α) (k : ℕ) (pi : PlotInfo α) (m : α) (pi2 : PlotInfo α) (k2 : ℕ)
    (hrank : p.rankEValues = false) (hrand : p.randomizeZeroEValues = false)
    (hzero : pi.zeroEValueFound = true) (hmax : pi.maxE = some m)
    (hres : finalizeTitle logw rand p k pi = some (pi2, k2)) :
    pi2.items.map (·.convertedE) = assignPendingSpec (m + 1) (pi.items.map (·.convertedE)) ∧
    pi2.maxEIncludingRandoms =
      some (m + (pi.items.countP (fun it => it.convertedE.isNone) : α)) ∧
    k2 = k := by
  obtain ⟨l', hrp, hmap⟩ := resolvePending_spec pi.items m
  simp only [finalizeTitle, hrank, hrand, hzero, hmax, Bool.false_eq_true, if_false,
    if_true, hrp, Option.map_some'] at hres
  by_cases hll : p.logLinearXAxis
  · simp only [hll, if_true, Option.map_eq_some'] at hres
    obtain ⟨q2, hq2, heq⟩ := hres
    have h1 : q2 = pi2 := congrArg Prod.fst heq
    have h2 : k = k2 := congrArg Prod.snd heq
    obtain ⟨hm1, hm2, _, _, _, _⟩ := llAdjust_preserves logw _ _ hq2
    subst h1
    refine ⟨?_, ?_, h2.symm⟩
    · rw [hm1]
      simpa using hmap
    · rw [hm2]
  · simp only [hll, Bool.false_eq_true, if_false, Option.some_inj] at hres
    have h1 := congrArg Prod.fst hres
    have h2 : k = k2 := congrArg Prod.snd hres
    simp only at h1
    subst h1
    refine ⟨?_, ?_, h2.symm⟩
    · simpa using hmap
    · simp

theorem assignRanks_length {α : Type} [LinearOrderedCommRing α] :
    ∀ (l : List (Item α)) (n : ℕ), (assignRanks n l).length = l.length := by
  intro l
  induction l with
  | nil => intro n; rfl
  | cons it rest ih =>
    intro n
    simp only [assignRanks, List.length_cons, ih]

theorem assignRanks_map {α : Type} [LinearOrderedCommRing α] :
    ∀ (l : List (Item α)) (n : ℕ),
      (assignRanks n l).map (·.convertedE) =
        (List.range l.length).map (fun i => some ((n + i : ℕ) : α)) := by
  intro l
  induction l with
  | nil => intro n; rfl
  | cons it rest ih =>
    intro n
    simp only [assignRanks, List.map_cons, List.length_cons, List.range_succ_eq_map,
      List.map_map]
    rw [ih (n + 1)]
    refine congrArg₂ List.cons (by norm_num) ?_
    refine List.map_congr_left ?_
    intro i _
    simp only [Function.comp_apply, Option.some_inj]
    exact congrArg _ (by omega)

theorem convertRanks_spec {α : Type} [LinearOrderedCommRing α] (q : PlotInfo α) :
    (convertRanks q).items.map (·.convertedE) = rankListSpec α (convertRanks q).items.length ∧
    (convertRanks q).minE = some 1 ∧
    (convertRanks q).maxE = some ((convertRanks q).items.length : α) ∧
    (convertRanks q).maxEIncludingRandoms = some ((convertRanks q).items.length : α) ∧
    (convertRanks q).zeroEValueFound = false := by
  refine ⟨?_, rfl, rfl, rfl, rfl⟩
  simp only [convertRanks]
  rw [assignRanks_map, rankListSpec, assignRanks_length]
  refine List.map_congr_left ?_
  intro i _
  exact congrArg _ (congrArg _ (by omega))

theorem finalizeTitle_rank {α : Type} [LinearOrderedCommRing α] (logw : α → α)
    (rand : ℕ → α) (p : PlotParams α) (k : ℕ) (pi pi2 : PlotInfo α) (k2 : ℕ)
    (hrank : p.rankEValues = true)
    (h : finalizeTitle logw rand p k pi = some (pi2, k2)) :
    pi2.items.map (·.convertedE) = rankListSpec α pi2.items.length ∧
    pi2.minE = some 1 ∧
    pi2.maxE = some (pi2.items.length : α) ∧
    pi2.maxEIncludingRandoms = some (pi2.items.length : α) ∧
    pi2.zeroEValueFound = false := by
  obtain ⟨hcr1, hcr2, hcr3, hcr4, hcr5⟩ := convertRanks_spec (α := α) pi
  simp only [finalizeTitle, hrank, if_true, hcr5, Bool.false_eq_true, if_false] at h
  by_cases hll : p.logLinearXAxis
  · simp only [hll, if_true, Option.map_eq_some'] at h
    obtain ⟨q2, hq2, heq⟩ := h
    have h1 : q2 = pi2 := congrArg Prod.fst heq
    obtain ⟨hm1, hm2, hm3, hm4, hm5, hm6⟩ := llAdjust_preserves logw _ _ hq2
    subst h1
    simp only at hm1 hm2 hm3 hm4 hm5 hm6
    have hlen : q2.items.length = (convertRanks pi).items.length := by
      simpa using hm3
    refine ⟨?_, ?_, ?_, ?_, ?_⟩
    · rw [hm1, hlen]
      simpa using hcr1
    · simpa [hm5] using hcr2
    · rw [hm4, hlen]
      simpa using hcr3
    · rw [hm2, hlen]
      simpa using hcr3
    · simp only [hm6, hcr5]
  · simp only [hll, Bool.false_eq_true, if_false, Option.some_inj] at h
    have h1 := congrArg Prod.fst h
    simp only at h1
    subst h1
    exact ⟨by simpa using hcr1, by simpa using hcr2, by simpa using hcr3,
      by simpa using hcr3, by simp [hcr5]⟩

theorem finalizeAll_mem {τ α : Type} [LinearOrderedCommRing α] (logw : α → α)
    (rand : ℕ → α) (p : PlotParams α) :
    ∀ (l : List (τ × TitleEntry α)) (k : ℕ) (l' : List (τ × TitleEntry α)),
      finalizeAll logw rand p k l = some l' →
      ∀ (t : τ) (e' : TitleEntry α), (t, e') ∈ l' →
        ∀ pi', e'.plotInfo = some pi' →
          ∃ (e : TitleEntry α) (pi : PlotInfo α) (k1 k2 : ℕ),
            (t, e) ∈ l ∧ e.plotInfo = some pi ∧
            finalizeTitle logw rand p k1 pi = some (pi', k2) := by
  intro l
  induction l with
  | nil =>
    intro k l' h t e' hmem pi' hpi
    simp only [finalizeAll, Option.some_inj] at h
    subst h
    simp at hmem
  | cons p0 rest ih =>
    intro k l' h t e' hmem pi' hpi
    obtain ⟨t0, e0⟩ := p0
    rw [finalizeAll] at h
    cases he0 : e0.plotInfo with
    | none =>
      simp only [he0, Option.map_eq_some'] at h
      obtain ⟨rest', hrest, hl'⟩ := h
      subst hl'
      rcases List.mem_cons.mp hmem with hhead | htail
      · obtain ⟨ht, he⟩ := Prod.ext_iff.mp hhead
        subst ht; subst he
        rw [hpi] at he0
        exact absurd he0 (by simp)
      · obtain ⟨e, pi, k1, k2, hm, hp, hf⟩ := ih k rest' hrest t e' htail pi' hpi
        exact ⟨e, pi, k1, k2, List.mem_cons_of_mem _ hm, hp, hf⟩
    | some pi0 =>
      simp only [he0] at h
      cases hft : finalizeTitle logw rand p k pi0 with
      | none => rw [hft] at h; simp at h
      | some r =>
        obtain ⟨pi2, knext⟩ := r
        simp only [hft, Option.map_eq_some'] at h
        obtain ⟨rest', hrest, hl'⟩ := h
        subst hl'
        rcases List.mem_cons.mp hmem with hhead | htail
        · obtain ⟨ht, he⟩ := Prod.ext_iff.mp hhead
          simp only at ht he
          have hpival : e'.plotInfo = some pi2 := by rw [he]
          rw [hpi] at hpival
          obtain hpieq := Option.some_inj.mp hpival
          refine ⟨e0, pi0, k, knext, ?_, he0, by rw [hft, hpieq]⟩
          rw [ht]
          exact List.mem_cons_self ..
        · obtain ⟨e, pi, k1, k2, hm, hp, hf⟩ := ih knext rest' hrest t e' htail pi' hpi
          exact ⟨e, pi, k1, k2, List.mem_cons_of_mem _ hm, hp, hf⟩

/-- Claim C3: after `computePlotInfo` with `rankEValues=True`, every title
with plot info has item converted scores exactly `1, …, itemCount` (in
particular the set `{1, …, itemCount}` with no duplicates), `minE = 1`,
`maxE = maxEIncludingRandoms = itemCount`, and a cleared zero-value flag. -/
theorem C3_rank_conversion {τ α : Type} [DecidableEq τ] [LinearOrderedCommRing α]
    (conv logw : α → α) (rand : ℕ → α) (p : PlotParams α) (records : List (Record τ α))
    (fastaSeqs : List ℕ) (recordsLen : ℕ) (limit : Option ℕ) (fastaCache : Option (List ℕ))
    (titles ts' : List (τ × TitleEntry α)) (t : τ) (e' : TitleEntry α) (pi' : PlotInfo α)
    (hrank : p.rankEValues = true)
    (h : computePlotInfo conv logw rand p records fastaSeqs recordsLen limit fastaCache
        titles = some ts')
    (hmem : (t, e') ∈ ts') (hpi : e'.plotInfo = some pi') :
    pi'.items.map (·.convertedE) = rankListSpec α pi'.items.length ∧
    pi'.minE = some 1 ∧
    pi'.maxE = some (pi'.items.length : α) ∧
    pi'.maxEIncludingRandoms = some (pi'.items.length : α) ∧
    pi'.zeroEValueFound = false := by
  simp only [computePlotInfo] at h
  split at h
  · exact absurd h (by simp)
  · obtain ⟨e, pi, k1, k2, _, _, hf⟩ :=
      finalizeAll_mem logw rand p _ 0 ts' h t e' hmem pi' hpi
    exact finalizeTitle_rank logw rand p k1 pi pi' k2 hrank hf

/-! ### Concrete instances for witnesses and counterexamples -/

/-- Integer-score conversion used by the witnesses (the conversion function
is a parameter of the embedding; the code instance is `neglog10`). -/
def convW : ℤ → ℤ := fun e => -e

def logwW : ℤ → ℤ := id

def randW : ℕ → ℤ := fun _ => 0

def hspW (e : ℤ) : HSP ℤ :=
  { expect := e, frameQuery := 1, frameSubject := 1,
    queryStart := 0, queryEnd := 0, subjectStart := 0, subjectEnd := 0 }

def pW2 : PlotParams ℤ :=
  { eCutoff := none, maxHspsPerHit := none, minStart := none, maxStop := none,
    logLinearXAxis := false, logBase := 2, randomizeZeroEValues := false,
    rankEValues := false }

def itemPend : Item ℤ :=
  { convertedE := none, hsp := ⟨0, 0, 0, 0⟩, origHsp := hspW 0,
    queryLen := 30, readNum := 0, frameQuery := 1, frameSubject := 1 }

def itemFive : Item ℤ :=
  { convertedE := some 5, hsp := ⟨0, 0, 0, 0⟩, origHsp := hspW (-5),
    queryLen := 30, readNum := 0, frameQuery := 1, frameSubject := 1 }

def piW2 : PlotInfo ℤ :=
  { hspTotal := 2, items := [itemPend, itemFive], maxE := some 5, minE := some 5,
    maxX := 100, minX := 0, zeroEValueFound := true, readIntervals := none,
    offsetAdjuster := none, maxEIncludingRandoms := none }

def piW2out : PlotInfo ℤ :=
  { piW2 with
    items := [{ itemPend with convertedE := some 6 }, itemFive],
    maxEIncludingRandoms := some 6 }

/-- Witness for C2 (amended) at a concrete input: a title with one
pending-zero item and one item of converted score 5 resolves the pending
item to 6 = maxE + 1 and ends with `maxEIncludingRandoms = 6`. -/
theorem C2_witness :
    finalizeTitle logwW randW pW2 0 piW2 = some (piW2out, 0) ∧
    piW2out.items.map (·.convertedE) =
      assignPendingSpec ((5 : ℤ) + 1) (piW2.items.map (·.convertedE)) ∧
    piW2out.maxEIncludingRandoms =
      some ((5 : ℤ) + (piW2.items.countP (fun it => it.convertedE.isNone) : ℤ)) :=
  ⟨by decide,
    (C2_zero_resolution logwW randW pW2 0 piW2 5 piW2out 0 rfl rfl rfl rfl (by decide)).1,
    (C2_zero_resolution logwW randW pW2 0 piW2 5 piW2out 0 rfl rfl rfl rfl (by decide)).2.1⟩

def hspR (e : ℝ) : HSP ℝ :=
  { expect := e, frameQuery := 1, frameSubject := 1,
    queryStart := 0, queryEnd := 0, subjectStart := 0, subjectEnd := 0 }

def pC2 : PlotParams ℝ :=
  { eCutoff := none, maxHspsPerHit := none, minStart := none, maxStop := none,
    logLinearXAxis := false, logBase := 2, randomizeZeroEValues := false,
    rankEValues := false }

def recsC2 : List (Record ℕ ℝ) :=
  [{ alignments := [{ title := 0, length := 100, hsps := [hspR 0] }] }]

def titlesC2 : List (ℕ × TitleEntry ℝ) := [(0, { length := 100, plotInfo := none })]

/-- Counterexample for C2 as stated: a title whose single item has score
`0.0`, with `randomizeZeroEValues=False`, does NOT end with converted score
`1`: the whole `computePlotInfo` call fails (Python 2 `TypeError` on
`None + 1`, since `maxE` is still `None`), modelled by the `none` result. -/
theorem C2_counterexample :
    computePlotInfoReal (fun _ => 0) pC2 recsC2 [30] 1 none none titlesC2 = none := by
  norm_num [computePlotInfoReal, computePlotInfo, resetPlotInfo, readFASTA, getHsps,
    alookup, walkAll, updateTitle, walkGroup, plotInfoDict, pyOr, hspStep, normalizeHSP,
    finalizeAll, finalizeTitle, resolvePending, List.enum, List.enumFrom, optGTb, optLTb,
    pC2, recsC2, titlesC2, hspR]

def pW3 : PlotParams ℤ := { pW2 with rankEValues := true }

def recsW3 : List (Record ℕ ℤ) :=
  [{ alignments := [{ title := 0, length := 100, hsps := [hspW (-1)] }] }]

def titlesW3 : List (ℕ × TitleEntry ℤ) := [(0, { length := 100, plotInfo := none })]

def itemW3 : Item ℤ :=
  { convertedE := some 1, hsp := ⟨0, 0, 0, 0⟩, origHsp := hspW (-1),
    queryLen := 30, readNum := 0, frameQuery := 1, frameSubject := 1 }

def piW3 : PlotInfo ℤ :=
  { hspTotal := 1, items := [itemW3], maxE := some 1, minE := some 1,
    maxX := 100, minX := 0, zeroEValueFound := false, readIntervals := none,
    offsetAdjuster := none, maxEIncludingRandoms := some 1 }

def entryW3 : TitleEntry ℤ := { length := 100, plotInfo := some piW3 }

/-- Witness for C3 at a concrete input: one title with one HSP, ranked. -/
theorem C3_witness :
    computePlotInfo convW logwW randW pW3 recsW3 [30] 1 none none titlesW3 =
        some [(0, entryW3)] ∧
    piW3.items.map (·.convertedE) = rankListSpec ℤ piW3.items.length ∧
    piW3.minE = some 1 ∧
    piW3.maxE = some (piW3.items.length : ℤ) ∧
    piW3.maxEIncludingRandoms = some (piW3.items.length : ℤ) ∧
    piW3.zeroEValueFound = false :=
  ⟨by decide,
    C3_rank_conversion convW logwW randW pW3 recsW3 [30] 1 none none titlesW3
      [(0, entryW3)] 0 entryW3 piW3 rfl (by decide) (by decide) rfl⟩

noncomputable def hspsC1 : List (HSP ℝ) := [hspR (1 / 10), hspR (1 / 100)]

noncomputable def recsC1 : List (Record ℕ ℝ) :=
  [{ alignments := [{ title := 0, length := 100, hsps := hspsC1 }] }]

/-- Claim C1 failing input, evaluated on the code: a title whose first read
group has two accepted HSPs with non-zero scores `0.1` and `0.01`.  The
converted scores are `-log10(0.1)` and `-log10(0.01)` as claimed, but
`firstItem` stays `True` for the whole first group (it is set per group, not
per item), so both `minE` and `maxE` are unconditionally overwritten by
every HSP of the group and end at `-log10(0.01)` — `minE` is NOT the minimum
of the converted scores, since the first item's converted score
`-log10(0.1)` is strictly smaller. -/
theorem C1_code_eval :
    ((computePlotInfoReal (fun _ => 0) pC2 recsC1 [30] 1 none none titlesC2).bind
        (fun ts => (alookup 0 ts).bind fun e => e.plotInfo.map
          fun pi => (pi.minE, pi.maxE, pi.items.map fun it => it.convertedE))) =
      some (some (neglog10 (1 / 100)), some (neglog10 (1 / 100)),
        [some (neglog10 (1 / 10)), some (neglog10 (1 / 100))]) ∧
    neglog10 (1 / 10) < neglog10 (1 / 100) := by
  constructor
  · norm_num [computePlotInfoReal, computePlotInfo, resetPlotInfo, readFASTA, getHsps,
      alookup, walkAll, updateTitle, walkGroup, plotInfoDict, pyOr, hspStep, normalizeHSP,
      finalizeAll, finalizeTitle, resolvePending, List.enum, List.enumFrom, optGTb, optLTb,
      pC2, recsC1, titlesC2, hspR, hspsC1]
  · have h : Real.logb 10 (1 / 100) < Real.logb 10 (1 / 10) :=
      Real.logb_lt_logb (by norm_num) (by norm_num) (by norm_num)
    simpa [neglog10] using h

/-! ### Idempotence of computePlotInfo -/

theorem resetPlotInfo_reset {τ α : Type} (ts : List (τ × TitleEntry α)) :
    resetPlotInfo (resetPlotInfo ts) = resetPlotInfo ts := by
  simp [resetPlotInfo, List.map_map]

theorem walkGroup_length {α : Type} [LinearOrderedCommRing α] (conv : α → α)
    (p : PlotParams α) (fasta : List ℕ) (readNum : ℕ) (hsps : List (HSP α))
    (e : TitleEntry α) : (walkGroup conv p fasta readNum hsps e).length = e.length := rfl

theorem resetPlotInfo_updateTitle {τ α : Type} [DecidableEq τ]
    (ts : List (τ × TitleEntry α)) (t : τ) (f : TitleEntry α → TitleEntry α)
    (hlen : ∀ e, (f e).length = e.length) :
    resetPlotInfo (updateTitle ts t f) = resetPlotInfo ts := by
  simp only [resetPlotInfo, updateTitle, List.map_map]
  refine List.map_congr_left ?_
  intro q _
  by_cases h : q.1 = t
  · simp [Function.comp_apply, h, hlen]
  · simp [Function.comp_apply, h]

theorem resetPlotInfo_walkAll {τ α : Type} [DecidableEq τ] [LinearOrderedCommRing α]
    (conv : α → α) (p : PlotParams α) (fasta : List ℕ) :
    ∀ (groups : List (τ × ℕ × List (HSP α))) (ts : List (τ × TitleEntry α)),
      resetPlotInfo (walkAll conv p fasta ts groups) = resetPlotInfo ts := by
  intro groups
  induction groups with
  | nil => intro ts; rfl
  | cons g rest ih =>
    intro ts
    have hstep : walkAll conv p fasta ts (g :: rest) =
        walkAll conv p fasta (updateTitle ts g.1 (walkGroup conv p fasta g.2.1 g.2.2))
          rest := by
      simp [walkAll]
    rw [hstep, ih]
    exact resetPlotInfo_updateTitle ts g.1 _ (fun e => walkGroup_length ..)

theorem resetPlotInfo_finalizeAll {τ α : Type} [LinearOrderedCommRing α] (logw : α → α)
    (rand : ℕ → α) (p : PlotParams α) :
    ∀ (l : List (τ × TitleEntry α)) (k : ℕ) (l' : List (τ × TitleEntry α)),
      finalizeAll logw rand p k l = some l' → resetPlotInfo l' = resetPlotInfo l := by
  intro l
  induction l with
  | nil =>
    intro k l' h
    simp only [finalizeAll, Option.some_inj] at h
    subst h
    rfl
  | cons p0 rest ih =>
    intro k l' h
    obtain ⟨t0, e0⟩ := p0
    rw [finalizeAll] at h
    cases he0 : e0.plotInfo with
    | none =>
      simp only [he0, Option.map_eq_some'] at h
      obtain ⟨rest', hrest, hl'⟩ := h
      subst hl'
      have htail := ih k rest' hrest
      simp only [resetPlotInfo, List.map_cons] at htail ⊢
      rw [htail]
    | some pi0 =>
      simp only [he0] at h
      cases hft : finalizeTitle logw rand p k pi0 with
      | none => rw [hft] at h; simp at h
      | some r =>
        obtain ⟨pi2, knext⟩ := r
        simp only [hft, Option.map_eq_some'] at h
        obtain ⟨rest', hrest, hl'⟩ := h
        subst hl'
        have htail := ih knext rest' hrest
        simp only [resetPlotInfo, List.map_cons] at htail ⊢
        rw [htail]

/-- Claim C6: calling `computePlotInfo` twice in succession with identical
parameters (including the injected random stream, per spec §9) on an
unchanged instance yields identical plot info for every title: the second
call, applied to the state produced by the first, returns that very state,
because each invocation first resets every title's plot info to absent and
rebuilds it from the titles' persistent data (keys and lengths), which the
first call left untouched. -/
theorem C6_idempotent {τ α : Type} [DecidableEq τ] [LinearOrderedCommRing α]
    (conv logw : α → α) (rand : ℕ → α) (p : PlotParams α) (records : List (Record τ α))
    (fastaSeqs : List ℕ) (recordsLen : ℕ) (limit : Option ℕ) (fastaCache : Option (List ℕ))
    (ts ts' : List (τ × TitleEntry α))
    (h : computePlotInfo conv logw rand p records fastaSeqs recordsLen limit fastaCache
        ts = some ts') :
    computePlotInfo conv logw rand p records fastaSeqs recordsLen limit fastaCache
        ts' = some ts' := by
  have hreset : resetPlotInfo ts' = resetPlotInfo ts := by
    have h2 := h
    simp only [computePlotInfo] at h2
    split at h2
    · exact absurd h2 (by simp)
    · calc resetPlotInfo ts'
          = resetPlotInfo (walkAll conv p _ (resetPlotInfo ts)
              (getHsps (resetPlotInfo ts) records)) :=
            resetPlotInfo_finalizeAll logw rand p _ 0 ts' h2
        _ = resetPlotInfo (resetPlotInfo ts) := resetPlotInfo_walkAll conv p _ _ _
        _ = resetPlotInfo ts := resetPlotInfo_reset ts
  have hcongr : computePlotInfo conv logw rand p records fastaSeqs recordsLen limit
      fastaCache ts' = computePlotInfo conv logw rand p records fastaSeqs recordsLen limit
      fastaCache ts := by
    simp only [computePlotInfo, hreset]
  rw [hcongr, h]

def titlesW6 : List (ℕ × TitleEntry ℤ) := [(0, { length := 100, plotInfo := some piW2 })]

def titlesW6out : List (ℕ × TitleEntry ℤ) := [(0, { length := 100, plotInfo := none })]

/-- Witness for C6 at a concrete input: a title carrying stale plot info is
reset by the first call; the second call returns the same state. -/
theorem C6_witness :
    computePlotInfo convW logwW randW pW2 ([] : List (Record ℕ ℤ)) [] 0 none none
        titlesW6 = some titlesW6out ∧
    computePlotInfo convW logwW randW pW2 ([] : List (Record ℕ ℤ)) [] 0 none none
        titlesW6out = some titlesW6out :=
  ⟨by decide,
    C6_idempotent convW logwW randW pW2 [] [] 0 none none titlesW6 titlesW6out (by decide)⟩

/-! ### Aggregation lemmas -/

theorem foldlM_option_inv {σ β : Type} (f : σ → β → Option σ) (P : σ → Prop)
    (hf : ∀ s b s', P s → f s b = some s' → P s') :
    ∀ (l : List β) (s s' : σ), P s → l.foldlM f s = some s' → P s' := by
  intro l
  induction l with
  | nil =>
    intro s s' hP h
    simp only [List.foldlM_nil] at h
    obtain rfl := Option.some_inj.mp h
    exact hP
  | cons b rest ih =>
    intro s s' hP h
    rw [List.foldlM_cons] at h
    cases hfb : f s b with
    | none => rw [hfb] at h; simp at h
    | some s2 =>
      rw [hfb] at h
      simp only [Option.bind_eq_bind, Option.some_bind] at h
      exact ih s2 s' (hf s b s2 hP hfb) h

theorem alookup_eq_none_iff {τ β : Type} [DecidableEq τ] (t : τ) (l : List (τ × β)) :
    alookup t l = none ↔ t ∉ l.map Prod.fst := by
  induction l with
  | nil => simp [alookup]
  | cons p rest ih =>
    by_cases h : p.1 = t
    · simp [alookup, h]
    · simp [alookup, h, ih, Ne.symm h]

theorem appendScore_keys {τ α : Type} [DecidableEq τ] (acc : List (τ × AccInfo α)) (t : τ)
    (e : α) (rn : ℕ) : (appendScore acc t e rn).map Prod.fst = acc.map Prod.fst := by
  simp only [appendScore, List.map_map]
  refine List.map_congr_left ?_
  intro p _
  by_cases h : p.1 = t <;> simp [h]

theorem alookup_map_update {τ β : Type} [DecidableEq τ] (g : β → β) (t : τ) :
    ∀ (l : List (τ × β)) (s : τ),
      alookup s (l.map fun p => if p.1 = t then (p.1, g p.2) else p) =
        if s = t then (alookup s l).map g else alookup s l := by
  intro l
  induction l with
  | nil =>
    intro s
    by_cases h : s = t <;> simp [alookup, h]
  | cons p rest ih =>
    intro s
    obtain ⟨u, b⟩ := p
    simp only [List.map_cons]
    by_cases hut : u = t
    · subst hut
      rw [show (if (u, b).1 = u then ((u, b).1, g (u, b).2) else (u, b)) =
          ((u, b).1, g (u, b).2) from if_pos rfl]
      by_cases hus : u = s
      · subst hus
        simp [alookup]
      · have hsu : ¬s = u := fun hh => hus hh.symm
        simp [alookup, hus, hsu, ih]
    · rw [show (if (u, b).1 = t then ((u, b).1, g (u, b).2) else (u, b)) = (u, b) from
        if_neg hut]
      by_cases hus : u = s
      · subst hus
        simp [alookup, hut]
      · have hsu : ¬s = u := fun hh => hus hh.symm
        simp [alookup, hus, hsu, ih]

theorem alookup_appendScore_self {τ α : Type} [DecidableEq τ] (acc : List (τ × AccInfo α))
    (t : τ) (e : α) (rn : ℕ) (a : AccInfo α) (h : alookup t acc = some a) :
    alookup t (appendScore acc t e rn) =
      some { a with
        eValues := a.eValues ++ [e],
        readCount := a.readCount + 1,
        readNums := addReadNum a.readNums rn } := by
  have h3 := alookup_map_update
    (fun a : AccInfo α =>
      { a with
        eValues := a.eValues ++ [e],
        readCount := a.readCount + 1,
        readNums := addReadNum a.readNums rn }) t acc t
  rw [if_pos rfl, h, Option.map_some'] at h3
  exact h3

theorem alookup_appendScore_other {τ α : Type} [DecidableEq τ] (acc : List (τ × AccInfo α))
    (t s : τ) (e : α) (rn : ℕ) (hne : s ≠ t) :
    alookup s (appendScore acc t e rn) = alookup s acc := by
  have h3 := alookup_map_update
    (fun a : AccInfo α =>
      { a with
        eValues := a.eValues ++ [e],
        readCount := a.readCount + 1,
        readNums := addReadNum a.readNums rn }) t acc s
  rw [if_neg hne] at h3
  exact h3


theorem aggAlign_nodup {τ α : Type} [DecidableEq τ] (tf : TitleFilter τ)
    (mn mx : Option ℕ) (rn : ℕ) (st : List (τ × AccInfo α) × List τ)
    (al : Alignment τ α) (st' : List (τ × AccInfo α) × List τ)
    (hP : (st.1.map Prod.fst).Nodup) (h : aggAlign tf mn mx rn st al = some st') :
    (st'.1.map Prod.fst).Nodup := by
  simp only [aggAlign] at h
  split at h
  · obtain rfl := Option.some_inj.mp h
    exact hP
  · split at h
    · split at h
      · simp at h
      · obtain rfl := Option.some_inj.mp h
        simpa [appendScore_keys] using hP
    · split at h
      · obtain rfl := Option.some_inj.mp h
        exact hP
      · split at h
        · simp at h
        · obtain rfl := Option.some_inj.mp h
          have hlook : alookup al.title st.1 = none := by assumption
          simp only [List.map_append, List.map_cons, List.map_nil]
          refine List.Nodup.append hP (List.nodup_singleton _) ?_
          rw [alookup_eq_none_iff] at hlook
          intro x hx hx2
          rw [List.mem_singleton] at hx2
          subst hx2
          exact hlook hx

theorem aggregate_nodup {τ α : Type} [DecidableEq τ] (tf : TitleFilter τ)
    (mn mx : Option ℕ) (records : List (Record τ α)) (acc : List (τ × AccInfo α))
    (h : aggregate tf mn mx records = some acc) : (acc.map Prod.fst).Nodup := by
  simp only [aggregate, Option.map_eq_some'] at h
  obtain ⟨st', hfold, hacc⟩ := h
  subst hacc
  refine foldlM_option_inv _ (fun st => (st.1.map Prod.fst).Nodup) ?_ records.enum
    ([], []) st' (by simp) hfold
  intro s b s2 hPs hstep
  exact foldlM_option_inv _ (fun st => (st.1.map Prod.fst).Nodup)
    (fun s b s2 hPs hstep => aggAlign_nodup tf mn mx _ s b s2 hPs hstep)
    b.2.alignments s s2 hPs hstep

theorem alookup_filterMap_retain {τ α : Type} [DecidableEq τ] [LinearOrderedField α]
    (hif : HitInfoFilter α) :
    ∀ (acc : List (τ × AccInfo α)), (acc.map Prod.fst).Nodup → ∀ t,
      alookup t (acc.filterMap fun p =>
          if retainHit hif p.2 then some (p.1, mkFinal p.2) else none) =
        (alookup t acc).bind fun a =>
          if retainHit hif a then some (mkFinal a) else none := by
  intro acc
  induction acc with
  | nil => intro _ t; rfl
  | cons p rest ih =>
    intro hnd t
    obtain ⟨s, a⟩ := p
    have hnds : (rest.map Prod.fst).Nodup := (List.nodup_cons.mp hnd).2
    have hsnotin : s ∉ rest.map Prod.fst := (List.nodup_cons.mp hnd).1
    by_cases hst : s = t
    · subst hst
      by_cases hret : retainHit hif a
      · simp [alookup, hret, List.filterMap_cons]
      · have hrest : alookup s rest = none := (alookup_eq_none_iff s rest).mpr hsnotin
        simp [List.filterMap_cons, hret, hrest, alookup, ih hnds]
    · by_cases hret : retainHit hif a
      · simp [List.filterMap_cons, hret, alookup, hst, ih hnds]
      · simp [List.filterMap_cons, hret, alookup, hst, ih hnds]

/-- Claim C4: an accumulated title appears in the result of
`BlastRecords.filterHits` exactly when its stored title-filter result was
WHITELIST_ACCEPT or its derived statistics are accepted by the hit-info
filter, and the retained value is exactly `mkFinal` of the accumulator —
the summary statistics, read count, read numbers and subject length, the
raw e-value list (and the stored filter result) having been dropped. -/
theorem C4_retention {τ α : Type} [DecidableEq τ] [LinearOrderedField α]
    (tf : TitleFilter τ) (hif : HitInfoFilter α) (mn mx : Option ℕ)
    (records : List (Record τ α)) (acc : List (τ × AccInfo α))
    (out : List (τ × HitInfo α))
    (h : aggregate tf mn mx records = some acc)
    (hout : filterHitsRecords tf hif mn mx records = some out) (t : τ) :
    alookup t out =
      (alookup t acc).bind fun a =>
        if retainHit hif a then some (mkFinal a) else none := by
  have hnd := aggregate_nodup tf mn mx records acc h
  simp only [filterHitsRecords, h, Option.map_some', Option.some_inj] at hout
  subst hout
  exact alookup_filterMap_retain hif acc hnd t

theorem foldlM_option_append {σ β : Type} (f : σ → β → Option σ) :
    ∀ (l1 l2 : List β) (s : σ),
      (l1 ++ l2).foldlM f s = (l1.foldlM f s).bind fun s2 => l2.foldlM f s2 := by
  intro l1
  induction l1 with
  | nil => intro l2 s; simp
  | cons b rest ih =>
    intro l2 s
    rw [List.cons_append, List.foldlM_cons, List.foldlM_cons]
    cases hfb : f s b with
    | none => simp
    | some s2 => simp [ih]

/-- The stream of `(readNum, alignment)` pairs of a record list, in the
order the nested loops of `filterHits` visit them. -/
def pairsOf {τ α : Type} (records : List (Record τ α)) : List (ℕ × Alignment τ α) :=
  records.enum.flatMap fun p => p.2.alignments.map fun al => (p.1, al)

theorem inner_fold_pairs {τ α : Type} [DecidableEq τ] (tf : TitleFilter τ)
    (mn mx : Option ℕ) (i : ℕ) :
    ∀ (als : List (Alignment τ α)) (init : List (τ × AccInfo α) × List τ),
      (als.map fun al => ((i, al) : ℕ × Alignment τ α)).foldlM
          (fun st pr => aggAlign tf mn mx pr.1 st pr.2) init =
        als.foldlM (aggAlign tf mn mx i) init := by
  intro als
  induction als with
  | nil => intro init; rfl
  | cons al rest ih =>
    intro init
    rw [List.map_cons, List.foldlM_cons, List.foldlM_cons]
    show aggAlign tf mn mx i init al >>=
        (rest.map fun al => ((i, al) : ℕ × Alignment τ α)).foldlM
          (fun st pr => aggAlign tf mn mx pr.1 st pr.2) =
      aggAlign tf mn mx i init al >>= rest.foldlM (aggAlign tf mn mx i)
    cases h : aggAlign tf mn mx i init al with
    | none => rfl
    | some s2 =>
      simp only [Option.bind_eq_bind, Option.some_bind]
      exact ih s2

theorem agg_fold_pairs {τ α : Type} [DecidableEq τ] (tf : TitleFilter τ)
    (mn mx : Option ℕ) :
    ∀ (l : List (ℕ × Record τ α)) (init : List (τ × AccInfo α) × List τ),
      l.foldlM (fun st p => p.2.alignments.foldlM (aggAlign tf mn mx p.1) st) init =
        (l.flatMap fun p => p.2.alignments.map fun al => (p.1, al)).foldlM
          (fun st pr => aggAlign tf mn mx pr.1 st pr.2) init := by
  intro l
  induction l with
  | nil => intro init; rfl
  | cons p rest ih =>
    intro init
    rw [List.foldlM_cons, List.flatMap_cons, foldlM_option_append, inner_fold_pairs]
    cases h : p.2.alignments.foldlM (aggAlign tf mn mx p.1) init with
    | none => simp
    | some s2 =>
      simp only [Option.bind_eq_bind, Option.some_bind]
      exact ih s2

theorem aggregate_eq_pairs {τ α : Type} [DecidableEq τ] (tf : TitleFilter τ)
    (mn mx : Option ℕ) (records : List (Record τ α)) :
    aggregate tf mn mx records =
      ((pairsOf records).foldlM
        (fun st pr => aggAlign tf mn mx pr.1 st pr.2)
        (([], []) : List (τ × AccInfo α) × List τ)).map (·.1) := by
  rw [aggregate, pairsOf, agg_fold_pairs]

theorem tfAccept_stateless {τ : Type} [DecidableEq τ] (tf : TitleFilter τ)
    (htr : tf.truncateAfter = none) (seen : List τ) (title : τ) :
    tfAccept tf seen title = ((tfAccept tf [] title).1, seen) := by
  simp only [tfAccept, htr]
  split_ifs <;> rfl

/-- The multiset of best-HSP scores contributed to title `t` by the
non-rejected alignments of a pair stream (the spec-side recount for claims
C5/C10; the title filter is applied statelessly, which matches the code when
no truncation marker is configured). -/
def scoresIn {τ α : Type} [DecidableEq τ] (tf : TitleFilter τ) (t : τ)
    (l : List (ℕ × Alignment τ α)) : List α :=
  l.filterMap fun pr =>
    if pr.2.title = t ∧ (tfAccept tf [] pr.2.title).1 ≠ TFR.reject then
      (pr.2.hsps.head?).map (·.expect)
    else none

/-- Spec-side description for claim C5: the best (first-HSP) scores of every
non-rejected alignment with title `t`, in stream order. -/
def bestScores {τ α : Type} [DecidableEq τ] (tf : TitleFilter τ) (t : τ)
    (records : List (Record τ α)) : List α :=
  scoresIn tf t (pairsOf records)

theorem aggAlign_eq {τ α : Type} [DecidableEq τ] (tf : TitleFilter τ)
    (htr : tf.truncateAfter = none) (mn mx : Option ℕ) (rn : ℕ)
    (st : List (τ × AccInfo α) × List τ) (al : Alignment τ α) :
    aggAlign tf mn mx rn st al =
      (if (tfAccept tf [] al.title).1 = TFR.reject then some (st.1, st.2)
       else
         match alookup al.title st.1 with
         | some _ =>
           match al.hsps.head? with
           | none => none
           | some h => some (appendScore st.1 al.title h.expect rn, st.2)
         | none =>
           if outOfBounds mn mx al.length then some (st.1, st.2)
           else
             match al.hsps.head? with
             | none => none
             | some h =>
               some (st.1 ++ [(al.title,
                 { eValues := [h.expect], length := al.length, readCount := 1,
                   readNums := [rn],
                   titleFilterResult := (tfAccept tf [] al.title).1 })], st.2)) := by
  rw [aggAlign, tfAccept_stateless tf htr st.2 al.title]

theorem agg_scores_aux {τ α : Type} [DecidableEq τ] [DecidableEq α] (tf : TitleFilter τ)
    (htr : tf.truncateAfter = none) :
    ∀ (l : List (ℕ × Alignment τ α)) (st st' : List (τ × AccInfo α) × List τ),
      l.foldlM (fun st pr => aggAlign tf none none pr.1 st pr.2) st = some st' →
      ∀ t, (alookup t st'.1).map (fun a => (a.eValues, a.readCount)) =
        match (alookup t st.1).map (fun a => (a.eValues, a.readCount)) with
        | some x => some (x.1 ++ scoresIn tf t l, x.2 + (scoresIn tf t l).length)
        | none =>
          if scoresIn tf t l = [] then none
          else some (scoresIn tf t l, (scoresIn tf t l).length) := by
  intro l
  induction l with
  | nil =>
    intro st st' h t
    simp only [List.foldlM_nil] at h
    obtain rfl := Option.some_inj.mp h
    cases hl : alookup t st.1 <;> simp [scoresIn]
  | cons pr rest ih =>
    intro st st' h t
    obtain ⟨rn, al⟩ := pr
    simp only [List.foldlM_cons] at h
    cases hstep : aggAlign tf none none rn st al with
    | none => rw [hstep] at h; simp at h
    | some st2 =>
      rw [hstep] at h
      simp only [Option.bind_eq_bind, Option.some_bind] at h
      have hrec := ih st2 st' h t
      rw [aggAlign_eq tf htr] at hstep
      by_cases hrej : (tfAccept tf [] al.title).1 = TFR.reject
      · rw [if_pos hrej] at hstep
        obtain rfl := Option.some_inj.mp hstep
        have hcond : ¬(al.title = t ∧ (tfAccept tf [] al.title).1 ≠ TFR.reject) :=
          fun hc => hc.2 hrej
        have hsc : scoresIn tf t ((rn, al) :: rest) = scoresIn tf t rest := by
          simp [scoresIn, List.filterMap_cons, hcond]
        rw [hsc]
        simpa using hrec
      · rw [if_neg hrej] at hstep
        cases hlook : alookup al.title st.1 with
        | some a0 =>
          simp only [hlook] at hstep
          cases hhead : al.hsps.head? with
          | none => simp only [hhead] at hstep; simp at hstep
          | some hh =>
            simp only [hhead, Option.map_some'] at hstep
            obtain rfl := Option.some_inj.mp hstep
            simp only at hrec
            by_cases ht : al.title = t
            · subst ht
              have hself := alookup_appendScore_self st.1 al.title hh.expect rn a0 hlook
              rw [hself, Option.map_some'] at hrec
              have hcond : al.title = al.title ∧
                  (tfAccept tf [] al.title).1 ≠ TFR.reject := ⟨rfl, hrej⟩
              have hsc : scoresIn tf al.title ((rn, al) :: rest) =
                  hh.expect :: scoresIn tf al.title rest := by
                simp [scoresIn, List.filterMap_cons, hcond, hhead]
              rw [hsc, hlook, Option.map_some']
              rw [hrec]
              simp only [Option.some_inj, Prod.mk.injEq]
              constructor
              · simp [List.append_assoc]
              · simp only [List.length_cons]
                omega
            · have hother := alookup_appendScore_other st.1 al.title t hh.expect rn
                (fun hh2 => ht hh2.symm)
              rw [hother] at hrec
              have hcond2 : ¬(al.title = t ∧
                  (tfAccept tf [] al.title).1 ≠ TFR.reject) := fun hc => ht hc.1
              have hsc : scoresIn tf t ((rn, al) :: rest) = scoresIn tf t rest := by
                simp [scoresIn, List.filterMap_cons, hcond2]
              rw [hsc]
              exact hrec
        | none =>
          simp only [hlook, outOfBounds, Bool.false_eq_true, if_false, Bool.or_self] at hstep
          cases hhead : al.hsps.head? with
          | none => simp only [hhead] at hstep; simp at hstep
          | some hh =>
            simp only [hhead, Option.map_some'] at hstep
            obtain rfl := Option.some_inj.mp hstep
            simp only at hrec
            by_cases ht : al.title = t
            · subst ht
              have happ : alookup al.title (st.1 ++ [(al.title,
                  ({ eValues := [hh.expect], length := al.length, readCount := 1,
                     readNums := [rn],
                     titleFilterResult := (tfAccept tf [] al.title).1 } : AccInfo α))]) =
                  some ({ eValues := [hh.expect], length := al.length, readCount := 1,
                          readNums := [rn],
                          titleFilterResult := (tfAccept tf [] al.title).1 } : AccInfo α) := by
                rw [alookup_append, hlook]
                simp [alookup]
              rw [happ, Option.map_some'] at hrec
              have hcond : al.title = al.title ∧
                  (tfAccept tf [] al.title).1 ≠ TFR.reject := ⟨rfl, hrej⟩
              have hsc : scoresIn tf al.title ((rn, al) :: rest) =
                  hh.expect :: scoresIn tf al.title rest := by
                simp [scoresIn, List.filterMap_cons, hcond, hhead]
              rw [hsc, hlook]
              simp only [Option.map_none']
              rw [hrec]
              have hne : ¬(hh.expect :: scoresIn tf al.title rest = []) := by simp
              rw [if_neg hne]
              simp only [Option.some_inj, Prod.mk.injEq]
              constructor
              · simp
              · simp only [List.length_cons]
                omega
            · have hother : alookup t (st.1 ++ [(al.title,
                  ({ eValues := [hh.expect], length := al.length, readCount := 1,
                     readNums := [rn],
                     titleFilterResult := (tfAccept tf [] al.title).1 } : AccInfo α))]) =
                  alookup t st.1 := by
                rw [alookup_append]
                cases hx : alookup t st.1 <;> simp [alookup, ht]
              rw [hother] at hrec
              have hcond2 : ¬(al.title = t ∧
                  (tfAccept tf [] al.title).1 ≠ TFR.reject) := fun hc => ht hc.1
              have hsc : scoresIn tf t ((rn, al) :: rest) = scoresIn tf t rest := by
                simp [scoresIn, List.filterMap_cons, hcond2]
              rw [hsc]
              exact hrec

/-- Claim C5: every non-rejected alignment contributes exactly its first
HSP's score to its title's e-value list (and one to the read count), and the
derived `eMin`/`eMean`/`eMedian` are the minimum, mean and median of that
list.  `bestScores` is the spec-side recount of those contributions; the
hypothesis `truncateAfter = none` keeps the title filter stateless so that
the recount is well defined (length bounds are not configured here — their
interaction with accumulation is claim C10). -/
theorem C5_aggregation {τ α : Type} [DecidableEq τ] [LinearOrderedField α]
    (tf : TitleFilter τ) (records : List (Record τ α)) (acc : List (τ × AccInfo α))
    (htr : tf.truncateAfter = none)
    (h : aggregate tf none none records = some acc) (t : τ) :
    ((alookup t acc).map fun a => (a.eValues, a.readCount)) =
      (if bestScores tf t records = [] then none
       else some (bestScores tf t records, (bestScores tf t records).length)) ∧
    ∀ (hif : HitInfoFilter α) (out : List (τ × HitInfo α)),
      filterHitsRecords tf hif none none records = some out →
      ∀ fi, alookup t out = some fi →
        fi.eMin = minList (bestScores tf t records) ∧
        fi.eMean = mean (bestScores tf t records) ∧
        fi.eMedian = median (bestScores tf t records) ∧
        fi.readCount = (bestScores tf t records).length := by
  have h0 := h
  rw [aggregate_eq_pairs, Option.map_eq_some'] at h
  obtain ⟨stf, hfold, hacc⟩ := h
  have haux := agg_scores_aux tf htr (pairsOf records) ([], []) stf hfold t
  have hmain : ((alookup t acc).map fun a => (a.eValues, a.readCount)) =
      (if bestScores tf t records = [] then none
       else some (bestScores tf t records, (bestScores tf t records).length)) := by
    rw [← hacc]
    simpa [bestScores] using haux
  refine ⟨hmain, ?_⟩
  intro hif out hout fi hfi
  have hnd := aggregate_nodup tf none none records acc h0
  simp only [filterHitsRecords, h0, Option.map_some', Option.some_inj] at hout
  subst hout
  rw [alookup_filterMap_retain hif acc hnd t] at hfi
  cases hlt : alookup t acc with
  | none => rw [hlt] at hfi; simp at hfi
  | some a =>
    rw [hlt] at hfi
    simp only [Option.some_bind] at hfi
    by_cases hret : retainHit hif a
    · rw [if_pos hret] at hfi
      obtain rfl := Option.some_inj.mp hfi
      rw [hlt, Option.map_some'] at hmain
      by_cases hbs : bestScores tf t records = []
      · rw [if_pos hbs] at hmain
        simp at hmain
      · rw [if_neg hbs] at hmain
        obtain heq := Option.some_inj.mp hmain
        have he1 : a.eValues = bestScores tf t records := congrArg Prod.fst heq
        have he2 : a.readCount = (bestScores tf t records).length := congrArg Prod.snd heq
        exact ⟨by simp [mkFinal, he1], by simp [mkFinal, he1], by simp [mkFinal, he1],
          by simp [mkFinal, he2]⟩
    · rw [if_neg hret] at hfi
      simp at hfi

def hspQ (e : ℚ) : HSP ℚ :=
  { expect := e, frameQuery := 1, frameSubject := 1,
    queryStart := 0, queryEnd := 0, subjectStart := 0, subjectEnd := 0 }

def tfW5 : TitleFilter ℕ :=
  { whitelist := [], blacklist := [], positiveRegex := none, negativeRegex := none,
    truncateAfter := none }

def recsW5 : List (Record ℕ ℚ) :=
  [{ alignments := [{ title := 0, length := 50, hsps := [hspQ (1 / 100)] }] },
   { alignments := [{ title := 0, length := 50, hsps := [hspQ (1 / 10000)] }] }]

def accW5 : List (ℕ × AccInfo ℚ) :=
  [(0, { eValues := [1 / 100, 1 / 10000], length := 50, readCount := 2,
         readNums := [0, 1], titleFilterResult := TFR.defaultAccept })]

/-- Witness for C5 at the spec's concrete scenario: two records hit title 0
with best scores 0.01 and 0.0001; the aggregate records exactly those two
scores, and min = 0.0001, mean = 0.00505, median = 0.00505, readCount = 2. -/
theorem C5_agg_eval : aggregate tfW5 none none recsW5 = some accW5 := by
  simp +decide [aggregate, aggAlign, tfAccept, tfRegex, tfW5, recsW5, accW5, hspQ, alookup,
    appendScore, addReadNum, outOfBounds, List.enum, List.enumFrom]

theorem C5_witness :
    aggregate tfW5 none none recsW5 = some accW5 ∧
    bestScores tfW5 0 recsW5 = [1 / 100, 1 / 10000] ∧
    (((alookup 0 accW5).map fun a => (a.eValues, a.readCount)) =
      (if bestScores tfW5 0 recsW5 = [] then none
       else some (bestScores tfW5 0 recsW5, (bestScores tfW5 0 recsW5).length))) ∧
    minList [(1 : ℚ) / 100, 1 / 10000] = 1 / 10000 ∧
    mean [(1 : ℚ) / 100, 1 / 10000] = 101 / 20000 ∧
    median [(1 : ℚ) / 100, 1 / 10000] = 101 / 20000 ∧
    (bestScores tfW5 0 recsW5).length = 2 :=
  ⟨C5_agg_eval, rfl, (C5_aggregation tfW5 recsW5 accW5 rfl C5_agg_eval 0).1,
    by norm_num [minList, min_def],
    by norm_num [mean],
    by norm_num [median, List.insertionSort, List.orderedInsert],
    rfl⟩

/-- Spec-side description for claim C10 (amended): the first alignment in
stream order with the given title that is not rejected by the title filter
and whose subject length passes the bounds. -/
def firstInBounds {τ α : Type} [DecidableEq τ] (tf : TitleFilter τ) (mn mx : Option ℕ)
    (t : τ) (l : List (ℕ × Alignment τ α)) : Option (Alignment τ α) :=
  (l.map Prod.snd).find? fun al =>
    decide (al.title = t) && decide ((tfAccept tf [] al.title).1 ≠ TFR.reject) &&
      !outOfBounds mn mx al.length

theorem agg_lengths_aux {τ α : Type} [DecidableEq τ] (tf : TitleFilter τ)
    (htr : tf.truncateAfter = none) (mn mx : Option ℕ) :
    ∀ (l : List (ℕ × Alignment τ α)) (st st' : List (τ × AccInfo α) × List τ),
      l.foldlM (fun st pr => aggAlign tf mn mx pr.1 st pr.2) st = some st' →
      ∀ t, (alookup t st'.1).map (fun a => a.length) =
        match (alookup t st.1).map (fun a => a.length) with
        | some n => some n
        | none => (firstInBounds tf mn mx t l).map (fun al => al.length) := by
  intro l
  induction l with
  | nil =>
    intro st st' h t
    simp only [List.foldlM_nil] at h
    obtain rfl := Option.some_inj.mp h
    cases hl : alookup t st.1 <;> simp [hl, firstInBounds]
  | cons pr rest ih =>
    intro st st' h t
    obtain ⟨rn, al⟩ := pr
    simp only [List.foldlM_cons] at h
    cases hstep : aggAlign tf mn mx rn st al with
    | none => rw [hstep] at h; simp at h
    | some st2 =>
      rw [hstep] at h
      simp only [Option.bind_eq_bind, Option.some_bind] at h
      have hrec := ih st2 st' h t
      rw [aggAlign_eq tf htr] at hstep
      by_cases hrej : (tfAccept tf [] al.title).1 = TFR.reject
      · rw [if_pos hrej] at hstep
        obtain rfl := Option.some_inj.mp hstep
        have hfb : firstInBounds tf mn mx t ((rn, al) :: rest) =
            firstInBounds tf mn mx t rest := by
          simp [firstInBounds, List.find?, hrej]
        rw [hfb]
        simpa using hrec
      · rw [if_neg hrej] at hstep
        cases hlook : alookup al.title st.1 with
        | some a0 =>
          simp only [hlook] at hstep
          cases hhead : al.hsps.head? with
          | none => simp only [hhead] at hstep; simp at hstep
          | some hh =>
            simp only [hhead] at hstep
            obtain rfl := Option.some_inj.mp hstep
            simp only at hrec
            by_cases ht : al.title = t
            · subst ht
              have hself := alookup_appendScore_self st.1 al.title hh.expect rn a0 hlook
              rw [hself, Option.map_some'] at hrec
              rw [hlook, Option.map_some']
              simpa using hrec
            · have hother := alookup_appendScore_other st.1 al.title t hh.expect rn
                (fun hh2 => ht hh2.symm)
              rw [hother] at hrec
              have hfb : firstInBounds tf mn mx t ((rn, al) :: rest) =
                  firstInBounds tf mn mx t rest := by
                simp [firstInBounds, List.find?, ht]
              rw [hfb]
              exact hrec
        | none =>
          simp only [hlook] at hstep
          cases hb : outOfBounds mn mx al.length with
          | true =>
            rw [if_pos (by rw [hb])] at hstep
            obtain rfl := Option.some_inj.mp hstep
            by_cases ht : al.title = t
            · subst ht
              have hfb : firstInBounds tf mn mx al.title ((rn, al) :: rest) =
                  firstInBounds tf mn mx al.title rest := by
                simp [firstInBounds, List.find?, hb]
              rw [hfb]
              simpa using hrec
            · have hfb : firstInBounds tf mn mx t ((rn, al) :: rest) =
                  firstInBounds tf mn mx t rest := by
                simp [firstInBounds, List.find?, ht]
              rw [hfb]
              simpa using hrec
          | false =>
            rw [if_neg (by rw [hb]; exact Bool.false_ne_true)] at hstep
            cases hhead : al.hsps.head? with
            | none => simp only [hhead] at hstep; simp at hstep
            | some hh =>
              simp only [hhead] at hstep
              obtain rfl := Option.some_inj.mp hstep
              simp only at hrec
              by_cases ht : al.title = t
              · subst ht
                have happ : alookup al.title (st.1 ++ [(al.title,
                    ({ eValues := [hh.expect], length := al.length, readCount := 1,
                       readNums := [rn],
                       titleFilterResult := (tfAccept tf [] al.title).1 } : AccInfo α))]) =
                    some ({ eValues := [hh.expect], length := al.length, readCount := 1,
                            readNums := [rn],
                            titleFilterResult := (tfAccept tf [] al.title).1 } : AccInfo α) := by
                  rw [alookup_append, hlook]
                  simp [alookup]
                rw [happ, Option.map_some'] at hrec
                have hfb : firstInBounds tf mn mx al.title ((rn, al) :: rest) = some al := by
                  simp [firstInBounds, List.find?, hrej, hb]
                rw [hfb, hlook]
                simpa using hrec
              · have hother : alookup t (st.1 ++ [(al.title,
                    ({ eValues := [hh.expect], length := al.length, readCount := 1,
                       readNums := [rn],
                       titleFilterResult := (tfAccept tf [] al.title).1 } : AccInfo α))]) =
                    alookup t st.1 := by
                  rw [alookup_append]
                  cases hx : alookup t st.1 <;> simp [alookup, ht]
                rw [hother] at hrec
                have hfb : firstInBounds tf mn mx t ((rn, al) :: rest) =
                    firstInBounds tf mn mx t rest := by
                  simp [firstInBounds, List.find?, ht]
                rw [hfb]
                exact hrec

/-- Claim C10 (amended): during aggregation, the subject-length bounds are
applied (before whitelist retention) on every occurrence of a title until it
is accumulated: a title is accumulated exactly at its first non-rejected
alignment whose subject length passes the bounds, and the stored subject
length is that alignment's length, regardless of lengths reported by other
alignments; a title all of whose non-rejected alignments are out of bounds
is never accumulated and never appears in the result, even when
whitelisted. -/
theorem C10_length_bounds {τ α : Type} [DecidableEq τ] [LinearOrderedField α]
    (tf : TitleFilter τ) (mn mx : Option ℕ) (records : List (Record τ α))
    (acc : List (τ × AccInfo α)) (htr : tf.truncateAfter = none)
    (h : aggregate tf mn mx records = some acc) (t : τ) :
    (alookup t acc).map (fun a => a.length) =
      (firstInBounds tf mn mx t (pairsOf records)).map (fun al => al.length) ∧
    (firstInBounds tf mn mx t (pairsOf records) = none →
      ∀ (hif : HitInfoFilter α) (out : List (τ × HitInfo α)),
        filterHitsRecords tf hif mn mx records = some out → alookup t out = none) := by
  have h0 := h
  rw [aggregate_eq_pairs, Option.map_eq_some'] at h
  obtain ⟨stf, hfold, hacc⟩ := h
  have haux := agg_lengths_aux tf htr mn mx (pairsOf records) ([], []) stf hfold t
  have hmain : (alookup t acc).map (fun a => a.length) =
      (firstInBounds tf mn mx t (pairsOf records)).map (fun al => al.length) := by
    rw [← hacc]
    simpa using haux
  refine ⟨hmain, ?_⟩
  intro hfb hif out hout
  have hnone : alookup t acc = none := by
    rw [hfb] at hmain
    simpa using hmain
  have hnd := aggregate_nodup tf mn mx records acc h0
  simp only [filterHitsRecords, h0, Option.map_some', Option.some_inj] at hout
  subst hout
  rw [alookup_filterMap_retain hif acc hnd t, hnone]
  rfl

def tfC10 : TitleFilter ℕ :=
  { whitelist := [0], blacklist := [], positiveRegex := none, negativeRegex := none,
    truncateAfter := none }

def hifC10 : HitInfoFilter ℚ :=
  { minSequenceLen := none, maxSequenceLen := none, minMatchingReads := none,
    maxMeanEValue := none, maxMedianEValue := none, withEBetterThan := none }

def recsC10 : List (Record ℕ ℚ) :=
  [{ alignments := [{ title := 0, length := 5, hsps := [hspQ 1] }] },
   { alignments := [{ title := 0, length := 20, hsps := [hspQ 1] }] }]

/-- Counterexample for C10 as stated: with `minSequenceLen = 10`, whitelisted
title 0 first appears with subject length 5 (out of bounds), yet it IS
accumulated — by its second alignment of length 20 — and appears in the
result with stored length 20, not the first occurrence's 5.  The length
check is re-run on every occurrence until the title is accumulated, so an
out-of-bounds first occurrence does not exclude the title, and the stored
length is not the first non-rejected occurrence's. -/
theorem C10_counterexample :
    (filterHitsRecords tfC10 hifC10 (some 10) none recsC10).map
        (fun out => (alookup 0 out).map (fun hi => hi.length)) =
      some (some 20) := by
  simp +decide [filterHitsRecords, aggregate, aggAlign, tfAccept, tfRegex, tfC10, hifC10,
    recsC10, hspQ, alookup, appendScore, addReadNum, outOfBounds, List.enum,
    List.enumFrom, retainHit, mkFinal, hifAccept]

def accW10 : List (ℕ × AccInfo ℚ) :=
  [(0, { eValues := [1], length := 20, readCount := 1,
         readNums := [1], titleFilterResult := TFR.whitelistAccept })]

theorem C10_agg_eval : aggregate tfC10 (some 10) none recsC10 = some accW10 := by
  simp +decide [aggregate, aggAlign, tfAccept, tfRegex, tfC10, recsC10, accW10, hspQ,
    alookup, appendScore, addReadNum, outOfBounds, List.enum, List.enumFrom]

/-- Witness for C10 (amended) at a concrete input: title 0's first alignment
has out-of-bounds length 5, its second has in-bounds length 20, so the
accumulated length is 20, matching `firstInBounds`. -/
theorem C10_witness :
    aggregate tfC10 (some 10) none recsC10 = some accW10 ∧
    (alookup 0 accW10).map (fun a => a.length) =
      (firstInBounds tfC10 (some 10) none 0 (pairsOf recsC10)).map (fun al => al.length) :=
  ⟨C10_agg_eval,
    (C10_length_bounds tfC10 (some 10) none recsC10 accW10 rfl C10_agg_eval 0).1⟩

def tfW4 : TitleFilter ℕ :=
  { whitelist := [], blacklist := [], positiveRegex := none, negativeRegex := none,
    truncateAfter := none }

def hifW4 : HitInfoFilter ℚ :=
  { minSequenceLen := none, maxSequenceLen := none, minMatchingReads := some 2,
    maxMeanEValue := none, maxMedianEValue := none, withEBetterThan := none }

def recsW4 : List (Record ℕ ℚ) :=
  [{ alignments := [{ title := 0, length := 7, hsps := [hspQ 1] },
                    { title := 1, length := 8, hsps := [hspQ 1] }] },
   { alignments := [{ title := 0, length := 7, hsps := [hspQ 2] }] }]

def accW4 : List (ℕ × AccInfo ℚ) :=
  [(0, { eValues := [1, 2], length := 7, readCount := 2,
         readNums := [0, 1], titleFilterResult := TFR.defaultAccept }),
   (1, { eValues := [1], length := 8, readCount := 1,
         readNums := [0], titleFilterResult := TFR.defaultAccept })]

def outW4 : List (ℕ × HitInfo ℚ) :=
  [(0, { length := 7, readCount := 2, readNums := [0, 1],
         eMean := 3/2, eMedian := 3/2, eMin := 1 })]

theorem C4_agg_eval : aggregate tfW4 none none recsW4 = some accW4 := by
  simp +decide [aggregate, aggAlign, tfAccept, tfRegex, tfW4, recsW4, accW4, hspQ,
    alookup, appendScore, addReadNum, outOfBounds, List.enum, List.enumFrom]

theorem C4_out_eval : filterHitsRecords tfW4 hifW4 none none recsW4 = some outW4 := by
  rw [filterHitsRecords, C4_agg_eval]
  norm_num [accW4, outW4, retainHit, hifAccept, mkFinal, mean, median, minList,
    List.filterMap, List.insertionSort, List.orderedInsert, hifW4, min_def]
  simp +decide

/-- Witness for C4 at a concrete input: title 0 (two matching reads) is
retained as `mkFinal` of its accumulator, title 1 (one matching read, below
the `minMatchingReads = 2` threshold, not whitelisted) is dropped. -/
theorem C4_witness :
    aggregate tfW4 none none recsW4 = some accW4 ∧
    filterHitsRecords tfW4 hifW4 none none recsW4 = some outW4 ∧
    (alookup 0 outW4 =
      (alookup 0 accW4).bind fun a =>
        if retainHit hifW4 a then some (mkFinal a) else none) ∧
    (alookup 1 outW4 =
      (alookup 1 accW4).bind fun a =>
        if retainHit hifW4 a then some (mkFinal a) else none) :=
  ⟨C4_agg_eval, C4_out_eval,
   C4_retention tfW4 hifW4 none none recsW4 accW4 outW4 C4_agg_eval C4_out_eval 0,
   C4_retention tfW4 hifW4 none none recsW4 accW4 outW4 C4_agg_eval C4_out_eval 1⟩

end DarkMatter
